import Mathlib

/-!
Verification of the analytics engine of mister-balance-analyzer.

The engine is the `_analyze` function of `src/main.py`: it consumes a list of
normalized transaction records and produces a bundle of derived metrics.  The
definitions below are a shallow embedding of that function: each Python dict
built incrementally by a loop is modelled as an insertion-ordered association
list built by a `foldl`, Python `sorted`/`list.sort` (which are stable) are
modelled by a stable insertion sort, Python float division is modelled over ℚ,
and the `ValueError` that `min`/`max` raise on an empty sequence is modelled
with `Except`.  Timestamps are modelled as minutes (an `Int`); the `.days`
field of a datetime difference is floor division by 1440.
-/

/-- A normalized transaction record, as produced by `_parse_html`:
`type` (the normalized kind string), optional `footballer` and
`league_player_associated` names, optional timestamp, signed `amount`
and `balance_after`. -/
structure Transaction where
  type : String
  footballer : Option String
  league_player_associated : Option String
  date_full : Option Int
  amount : Int
  balance_after : Int
  deriving DecidableEq, Inhabited

/-- Membership in `['purchase', 'buyout_signing', 'loan_purchase']` (line 240). -/
def isPurchaseType (ty : String) : Bool :=
  ty == "purchase" || ty == "buyout_signing" || ty == "loan_purchase"

/-- Membership in `['sale', 'buyout_sale', 'loan_sale']` (line 242). -/
def isSaleType (ty : String) : Bool :=
  ty == "sale" || ty == "buyout_sale" || ty == "loan_sale"

/-- The comparison `t['type'] == 'clause_increase'` (line 244). -/
def isClauseType (ty : String) : Bool := ty == "clause_increase"

/-- The per-player accumulator `{'purchases': [], 'sales': [], 'clause_increases': []}`. -/
structure PlayerData where
  purchases : List Transaction
  sales : List Transaction
  clause_increases : List Transaction
  deriving DecidableEq, Inhabited

/-- The defaultdict default for `player_transactions`. -/
def emptyPD : PlayerData := ⟨[], [], []⟩

/-- Update of an insertion-ordered association list at key `k` with `f`,
creating `f dflt` at the end when the key is absent.  This is the observable
effect of a Python `defaultdict` access `m[k]` followed by a mutation. -/
def updateAssoc {β : Type} (dflt : β) (m : List (String × β)) (k : String) (f : β → β) :
    List (String × β) :=
  match m with
  | [] => [(k, f dflt)]
  | kv :: rest => if kv.1 = k then (kv.1, f kv.2) :: rest else kv :: updateAssoc dflt rest k f

/-- One iteration of the grouping loop (lines 238-245): a record with a truthy
footballer is appended to the purchases, sales or clause-increase list of its
player, depending on its kind; all other records leave the dict untouched. -/
def groupStep (m : List (String × PlayerData)) (t : Transaction) : List (String × PlayerData) :=
  match t.footballer with
  | none => m
  | some name =>
    if name = "" then m
    else if isPurchaseType t.type then
      updateAssoc emptyPD m name (fun d => { d with purchases := d.purchases ++ [t] })
    else if isSaleType t.type then
      updateAssoc emptyPD m name (fun d => { d with sales := d.sales ++ [t] })
    else if isClauseType t.type then
      updateAssoc emptyPD m name (fun d => { d with clause_increases := d.clause_increases ++ [t] })
    else m

/-- The `player_transactions` defaultdict after the grouping loop. -/
def player_transactions (ts : List Transaction) : List (String × PlayerData) :=
  ts.foldl groupStep []

/-- Stable insertion into a list sorted by the boolean preorder `le`:
the new element goes in front of the first element `y` with `le x y`. -/
def stableInsert {α : Type} (le : α → α → Bool) (x : α) : List α → List α
  | [] => [x]
  | y :: ys => if le x y then x :: y :: ys else y :: stableInsert le x ys

/-- Stable sort by the boolean preorder `le`; for a total preorder this
produces the same list as Python `sorted` / `list.sort`, which are stable. -/
def stableSort {α : Type} (le : α → α → Bool) : List α → List α
  | [] => []
  | x :: xs => stableInsert le x (stableSort le xs)

/-- `sum(abs(t['amount']) for t in l)`. -/
def sumAbs (l : List Transaction) : Int := (l.map (fun t => |t.amount|)).sum

/-- `sum(t['amount'] for t in l)`. -/
def sumAmt (l : List Transaction) : Int := (l.map (fun t => t.amount)).sum

/-- One entry of the `player_profitability` list (lines 255-265). -/
structure ProfitEntry where
  player : String
  total_spent : Int
  total_earned : Int
  net_profit : Int
  num_purchases : Nat
  num_sales : Nat
  num_clause_increases : Nat
  deriving DecidableEq, Inhabited

/-- The profitability entry computed for one player (lines 249-265). -/
def mkProfitEntry (p : String) (d : PlayerData) : ProfitEntry :=
  { player := p
    total_spent := sumAbs d.purchases + sumAbs d.clause_increases
    total_earned := sumAmt d.sales
    net_profit := sumAmt d.sales - (sumAbs d.purchases + sumAbs d.clause_increases)
    num_purchases := d.purchases.length
    num_sales := d.sales.length
    num_clause_increases := d.clause_increases.length }

/-- The `player_profitability` list before sorting: one entry per grouped
player whose `sales` and `purchases` lists are both non-empty, in dict
(insertion) order (lines 247-265). -/
def profitPre (ts : List Transaction) : List ProfitEntry :=
  (player_transactions ts).filterMap (fun kv =>
    if !kv.2.sales.isEmpty && !kv.2.purchases.isEmpty then some (mkProfitEntry kv.1 kv.2)
    else none)

/-- `player_profitability` after `sort(key=net_profit, reverse=True)` (line 267). -/
def player_profitability (ts : List Transaction) : List ProfitEntry :=
  stableSort (fun a b => decide (b.net_profit ≤ a.net_profit)) (profitPre ts)

/-- `total_profitability = sum(p['net_profit'] for p in player_profitability)` (line 272). -/
def total_profitability (ts : List Transaction) : Int :=
  ((player_profitability ts).map (fun e => e.net_profit)).sum

/-- `top_buyout_signings`: buyout signings sorted by `abs(amount)` descending
(lines 277-279). -/
def top_buyout_signings (ts : List Transaction) : List Transaction :=
  stableSort (fun a b => decide (|b.amount| ≤ |a.amount|))
    (ts.filter (fun t => t.type == "buyout_signing"))

/-- `top_buyout_sales`: buyout sales sorted by signed `amount` descending
(lines 280-282). -/
def top_buyout_sales (ts : List Transaction) : List Transaction :=
  stableSort (fun a b => decide (b.amount ≤ a.amount))
    (ts.filter (fun t => t.type == "buyout_sale"))

/-- One value of the `type_summary` dict (lines 286-293). -/
structure TypeSummary where
  count : Nat
  total_amount : Int
  avg_amount : ℚ
  deriving DecidableEq, Inhabited

/-- One iteration of the type-breakdown loop (lines 287-289). -/
def typeStep (m : List (String × (Nat × Int))) (t : Transaction) : List (String × (Nat × Int)) :=
  updateAssoc (0, 0) m t.type (fun ct => (ct.1 + 1, ct.2 + t.amount))

/-- The count/total accumulator of the type breakdown. -/
def typeAcc (ts : List Transaction) : List (String × (Nat × Int)) :=
  ts.foldl typeStep []

/-- `type_summary` after the second loop fills in `avg_amount` (lines 290-293). -/
def type_summary (ts : List Transaction) : List (String × TypeSummary) :=
  (typeAcc ts).map (fun kv =>
    (kv.1, ⟨kv.2.1, kv.2.2, if 0 < kv.2.1 then (kv.2.2 : ℚ) / (kv.2.1 : ℚ) else 0⟩))

/-- The per-counterparty accumulator of the trading-partner dict (line 297),
without the derived `net_exchange` (set by a later loop). -/
structure PartnerData where
  purchases : Nat
  sales : Nat
  spent : Int
  earned : Int
  deriving DecidableEq, Inhabited

/-- Membership in `['buyout_signing', 'loan_purchase']` (line 301). -/
def isPartnerBuy (ty : String) : Bool := ty == "buyout_signing" || ty == "loan_purchase"

/-- Membership in `['buyout_sale', 'loan_sale']` (line 304). -/
def isPartnerSell (ty : String) : Bool := ty == "buyout_sale" || ty == "loan_sale"

/-- One iteration of the trading-partner loop (lines 298-306). -/
def partnerStep (m : List (String × PartnerData)) (t : Transaction) :
    List (String × PartnerData) :=
  match t.league_player_associated with
  | none => m
  | some partner =>
    if partner = "" then m
    else if isPartnerBuy t.type then
      updateAssoc ⟨0, 0, 0, 0⟩ m partner
        (fun d => { d with purchases := d.purchases + 1, spent := d.spent + |t.amount| })
    else if isPartnerSell t.type then
      updateAssoc ⟨0, 0, 0, 0⟩ m partner
        (fun d => { d with sales := d.sales + 1, earned := d.earned + t.amount })
    else m

/-- The `trading_partners` defaultdict after its loop. -/
def partnerAcc (ts : List Transaction) : List (String × PartnerData) :=
  ts.foldl partnerStep []

/-- One entry of `top_trading_partners` (`{'partner': k, **v}`, line 313). -/
structure PartnerEntry where
  partner : String
  purchases : Nat
  sales : Nat
  spent : Int
  earned : Int
  net_exchange : Int
  deriving DecidableEq, Inhabited

/-- `top_trading_partners`: the partner entries, with `net_exchange` filled in
by the second loop (lines 308-311), sorted by `net_exchange` descending
(lines 312-314). -/
def top_trading_partners (ts : List Transaction) : List PartnerEntry :=
  stableSort (fun a b => decide (b.net_exchange ≤ a.net_exchange))
    ((partnerAcc ts).map (fun kv =>
      ⟨kv.1, kv.2.purchases, kv.2.sales, kv.2.spent, kv.2.earned, kv.2.earned - kv.2.spent⟩))

/-- `biggest_losses`: the profitability entries with negative net profit,
sorted ascending by `net_profit` (lines 319-321). -/
def biggest_losses (ts : List Transaction) : List ProfitEntry :=
  stableSort (fun a b => decide (a.net_profit ≤ b.net_profit))
    ((player_profitability ts).filter (fun p => decide (p.net_profit < 0)))

/-- `best_deals`: the profitability entries with positive net profit,
sorted descending by `net_profit` (lines 325-327). -/
def best_deals (ts : List Transaction) : List ProfitEntry :=
  stableSort (fun a b => decide (b.net_profit ≤ a.net_profit))
    ((player_profitability ts).filter (fun p => decide (0 < p.net_profit)))

/-- `clause_increase_summary` (lines 331-337). -/
structure ClauseSummary where
  total_count : Nat
  total_cost : Int
  avg_cost : ℚ
  deriving DecidableEq, Inhabited

/-- The clause-increase aggregation (lines 331-337). -/
def clause_increase_summary (ts : List Transaction) : ClauseSummary :=
  { total_count := (ts.filter (fun t => isClauseType t.type)).length
    total_cost := sumAbs (ts.filter (fun t => isClauseType t.type))
    avg_cost :=
      if (ts.filter (fun t => isClauseType t.type)).isEmpty then 0
      else (sumAbs (ts.filter (fun t => isClauseType t.type)) : ℚ) /
        ((ts.filter (fun t => isClauseType t.type)).length : ℚ) }

/-- One entry of `current_squad` (lines 347-354). -/
structure SquadEntry where
  player : String
  total_invested : Int
  num_purchases : Nat
  num_clause_increases : Nat
  deriving DecidableEq, Inhabited

/-- The squad entry computed for one player (lines 345-354). -/
def mkSquadEntry (p : String) (d : PlayerData) : SquadEntry :=
  ⟨p, sumAbs d.purchases + sumAbs d.clause_increases, d.purchases.length,
    d.clause_increases.length⟩

/-- The `current_squad` list before sorting: grouped players with no sales and
some purchase or clause increase, in dict order (lines 341-354). -/
def squadPre (ts : List Transaction) : List SquadEntry :=
  (player_transactions ts).filterMap (fun kv =>
    if kv.2.sales.isEmpty && (!kv.2.purchases.isEmpty || !kv.2.clause_increases.isEmpty) then
      some (mkSquadEntry kv.1 kv.2)
    else none)

/-- `current_squad` after `sort(key=total_invested, reverse=True)` (line 355). -/
def current_squad (ts : List Transaction) : List SquadEntry :=
  stableSort (fun a b => decide (b.total_invested ≤ a.total_invested)) (squadPre ts)

/-- One entry of `roi_data` (lines 377-386). -/
structure RoiEntry where
  player : String
  roi_percentage : ℚ
  net_profit : Int
  total_spent : Int
  total_earned : Int
  hold_days : Int
  deriving DecidableEq, Inhabited

/-- One iteration of the hold-time/ROI loop for one grouped player
(lines 363-386).  `min`/`max` over the date-filtered generators raise
`ValueError` on an empty sequence, which is modelled as `Except.error`;
a qualifying player with at least one purchase date and one sale date
contributes a hold time and an ROI entry. -/
def roiStep (kv : String × PlayerData) : Except String (Option (Int × RoiEntry)) :=
  if !kv.2.sales.isEmpty && !kv.2.purchases.isEmpty then
    match (kv.2.purchases.filterMap (fun t => t.date_full)).min? with
    | none => Except.error "min() arg is an empty sequence"
    | some fp =>
      match (kv.2.sales.filterMap (fun t => t.date_full)).max? with
      | none => Except.error "max() arg is an empty sequence"
      | some ls =>
        Except.ok (some ((ls - fp).fdiv 1440,
          { player := kv.1
            roi_percentage :=
              if 0 < sumAbs kv.2.purchases + sumAbs kv.2.clause_increases then
                ((sumAmt kv.2.sales - (sumAbs kv.2.purchases + sumAbs kv.2.clause_increases) : Int) : ℚ) /
                  ((sumAbs kv.2.purchases + sumAbs kv.2.clause_increases : Int) : ℚ) * 100
              else 0
            net_profit := sumAmt kv.2.sales - (sumAbs kv.2.purchases + sumAbs kv.2.clause_increases)
            total_spent := sumAbs kv.2.purchases + sumAbs kv.2.clause_increases
            total_earned := sumAmt kv.2.sales
            hold_days := (ls - fp).fdiv 1440 }))
  else Except.ok none

/-- The hold-time/ROI loop over the grouped players, in dict order: collects
`hold_times` and `roi_data`, propagating the first `ValueError`. -/
def roiScan : List (String × PlayerData) → Except String (List Int × List RoiEntry)
  | [] => Except.ok ([], [])
  | kv :: rest =>
    match roiStep kv with
    | Except.error e => Except.error e
    | Except.ok none => roiScan rest
    | Except.ok (some hr) =>
      match roiScan rest with
      | Except.error e => Except.error e
      | Except.ok hsrs => Except.ok (hr.1 :: hsrs.1, hr.2 :: hsrs.2)

/-- The `analytics` result dict of `_analyze` (lines 232-401). -/
structure Analytics where
  player_profitability : List ProfitEntry
  total_profitability : Int
  top_buyout_signings : List Transaction
  top_buyout_sales : List Transaction
  type_summary : List (String × TypeSummary)
  top_trading_partners : List PartnerEntry
  biggest_losses : List ProfitEntry
  best_deals : List ProfitEntry
  clause_increase_summary : ClauseSummary
  current_squad : List SquadEntry
  current_squad_total_investment : Int
  average_hold_time : ℚ
  roi_data : List RoiEntry
  best_roi_players : List RoiEntry
  worst_roi_players : List RoiEntry
  win_rate : ℚ
  total_trades : Nat
  profitable_trades : Nat
  losing_trades : Nat
  deriving DecidableEq, Inhabited

/-- Assembly of the analytics bundle from the hold-time/ROI loop output
(lines 387-399): `roi_data` is sorted by `roi_percentage` descending,
`best_roi_players` takes the first 20 positive-ROI entries, and
`worst_roi_players` takes the last 20 of the negative-ROI entries
(`[p for p in roi_data if p['roi_percentage'] < 0][-20:]`, line 390).
The win-rate figures are computed over the unsorted `roi_data` local. -/
def mkAnalytics (ts : List Transaction) (hr : List Int × List RoiEntry) : Analytics :=
  { player_profitability := player_profitability ts
    total_profitability := total_profitability ts
    top_buyout_signings := top_buyout_signings ts
    top_buyout_sales := top_buyout_sales ts
    type_summary := type_summary ts
    top_trading_partners := top_trading_partners ts
    biggest_losses := biggest_losses ts
    best_deals := best_deals ts
    clause_increase_summary := clause_increase_summary ts
    current_squad := current_squad ts
    current_squad_total_investment := ((current_squad ts).map (fun e => e.total_invested)).sum
    average_hold_time :=
      if hr.1.isEmpty then 0 else ((hr.1.sum : Int) : ℚ) / ((hr.1.length : Nat) : ℚ)
    roi_data := stableSort (fun a b => decide (b.roi_percentage ≤ a.roi_percentage)) hr.2
    best_roi_players :=
      ((stableSort (fun a b => decide (b.roi_percentage ≤ a.roi_percentage)) hr.2).filter
        (fun e => decide (0 < e.roi_percentage))).take 20
    worst_roi_players :=
      ((stableSort (fun a b => decide (b.roi_percentage ≤ a.roi_percentage)) hr.2).filter
          (fun e => decide (e.roi_percentage < 0))).drop
        (((stableSort (fun a b => decide (b.roi_percentage ≤ a.roi_percentage)) hr.2).filter
          (fun e => decide (e.roi_percentage < 0))).length - 20)
    win_rate :=
      if 0 < hr.2.length then
        (((hr.2.filter (fun e => decide (0 < e.net_profit))).length : Nat) : ℚ) /
          ((hr.2.length : Nat) : ℚ) * 100
      else 0
    total_trades := hr.2.length
    profitable_trades := (hr.2.filter (fun e => decide (0 < e.net_profit))).length
    losing_trades := hr.2.length - (hr.2.filter (fun e => decide (0 < e.net_profit))).length }

/-- The whole analytics engine `_analyze`: groups the records, runs every
sub-analysis, and propagates the `ValueError` that the hold-time/ROI loop
raises when a qualifying player has no resolvable timestamps. -/
def analyze (ts : List Transaction) : Except String Analytics :=
  match roiScan (player_transactions ts) with
  | Except.error e => Except.error e
  | Except.ok hr => Except.ok (mkAnalytics ts hr)

/-- The analytics bundle of a run that is known to succeed. -/
def analyzeD (ts : List Transaction) : Analytics :=
  ((analyze ts).toOption).getD default

/-! Characterization helpers.  These express what the incremental dict loops
compute, and are related to the `foldl` definitions above by the lemmas
below. -/

/-- The truthiness test `if t['footballer']:` specialized to a player name:
the record belongs to `p` when its footballer is the non-empty string `p`. -/
def isFor (t : Transaction) (p : String) : Bool :=
  (t.footballer == some p) && !(p == "")

/-- The key under which the grouping loop files a record, if any: a record
with a truthy footballer and a purchase-like, sale-like or clause-increase
kind is filed under its footballer, every other record is skipped. -/
def keyOf (t : Transaction) : Option String :=
  match t.footballer with
  | none => none
  | some name =>
    if name = "" then none
    else if isPurchaseType t.type || isSaleType t.type || isClauseType t.type then some name
    else none

/-- The single-record update of a player accumulator, with the kind dispatch
of the grouping loop folded into one function. -/
def addPD (t : Transaction) (d : PlayerData) : PlayerData :=
  if isPurchaseType t.type then { d with purchases := d.purchases ++ [t] }
  else if isSaleType t.type then { d with sales := d.sales ++ [t] }
  else if isClauseType t.type then { d with clause_increases := d.clause_increases ++ [t] }
  else d

/-- The player accumulator described extensionally: the three category
sublists of the input belonging to player `p`. -/
def filtPD (ts : List Transaction) (p : String) : PlayerData :=
  ⟨ts.filter (fun t => isFor t p && isPurchaseType t.type),
   ts.filter (fun t => isFor t p && isSaleType t.type),
   ts.filter (fun t => isFor t p && isClauseType t.type)⟩

/-- The truthiness test `if t['league_player_associated']:` specialized to a
counterparty name. -/
def isPart (t : Transaction) (k : String) : Bool :=
  (t.league_player_associated == some k) && !(k == "")

/-- The key under which the trading-partner loop files a record, if any. -/
def partnerKeyOf (t : Transaction) : Option String :=
  match t.league_player_associated with
  | none => none
  | some partner =>
    if partner = "" then none
    else if isPartnerBuy t.type || isPartnerSell t.type then some partner
    else none

/-- The single-record update of a counterparty accumulator. -/
def addPartner (t : Transaction) (d : PartnerData) : PartnerData :=
  if isPartnerBuy t.type then { d with purchases := d.purchases + 1, spent := d.spent + |t.amount| }
  else if isPartnerSell t.type then { d with sales := d.sales + 1, earned := d.earned + t.amount }
  else d

/-- The counterparty accumulator described extensionally. -/
def filtPartner (ts : List Transaction) (k : String) : PartnerData :=
  ⟨(ts.filter (fun t => isPart t k && isPartnerBuy t.type)).length,
   (ts.filter (fun t => isPart t k && isPartnerSell t.type)).length,
   sumAbs (ts.filter (fun t => isPart t k && isPartnerBuy t.type)),
   sumAmt (ts.filter (fun t => isPart t k && isPartnerSell t.type))⟩

/-- First occurrences of a list of keys, in encounter order: the iteration
order of a Python dict whose keys were inserted from this list. -/
def firstKeys : List String → List String
  | [] => []
  | x :: xs => x :: (firstKeys xs).filter (fun y => y != x)

/-- The keys of an association list, in order. -/
def assocKeys {β : Type} (m : List (String × β)) : List String := m.map Prod.fst

/-- Boolean list membership for keys. -/
def memB (k : String) : List String → Bool
  | [] => false
  | x :: xs => (x == k) || memB k xs

/-- First-match lookup in an association list. -/
def lookupA {β : Type} : List (String × β) → String → Option β
  | [], _ => none
  | kv :: rest, k => if kv.1 = k then some kv.2 else lookupA rest k

/-- The count that the type breakdown reports for kind `k` (0 when absent). -/
def typeCountAt (ts : List Transaction) (k : String) : Nat :=
  match lookupA (type_summary ts) k with
  | some s => s.count
  | none => 0

/-- Modelled from the spec: the reading of `worst_roi_players` asserted by the
claim — the last 20 entries of the full ROI-qualifying list sorted ascending
by `roi_percentage` (so that with fewer than 20 negative-ROI players the
slice includes zero/positive-ROI entries from the boundary).  This is to be
compared against the `worst_roi_players` the code computes. -/
def worstRoiClaimed (rd : List RoiEntry) : List RoiEntry :=
  (stableSort (fun a b => decide (a.roi_percentage ≤ b.roi_percentage)) rd).drop
    ((stableSort (fun a b => decide (a.roi_percentage ≤ b.roi_percentage)) rd).length - 20)

/-! Concrete inputs used by witnesses and counterexamples. -/

/-- Builder for a concrete record with balance 0. -/
def mkT (ty : String) (fb : Option String) (lp : Option String) (df : Option Int)
    (amt : Int) : Transaction :=
  ⟨ty, fb, lp, df, amt, 0⟩

/-- A purchase and a sale of player A, both with missing timestamps. -/
def tsMissingDates : List Transaction :=
  [mkT "purchase" (some "A") none none (-1000), mkT "sale" (some "A") none none 1500]

/-- A completed trade with timestamps whose total spent is 0 (a free
purchase), so its ROI is 0: it qualifies for the ROI list but is not
negative. -/
def tsZeroSpent : List Transaction :=
  [mkT "purchase" (some "Z") none (some 0) 0,
   mkT "sale" (some "Z") none (some 1440) 500]

/-- Player A has a clause increase and a sale, but no purchase-like record. -/
def tsClauseSale : List Transaction :=
  [mkT "clause_increase" (some "A") none none (-100), mkT "sale" (some "A") none none 500]

/-- The trading-partner scenario from the spec: a buyout signing of -5000 and
a buyout sale of +3000, both with counterparty C. -/
def tsPartnerC : List Transaction :=
  [mkT "buyout_signing" (some "X") (some "C") none (-5000),
   mkT "buyout_sale" (some "Y") (some "C") none 3000]

/-- One completed, dated, profitable trade of player A. -/
def tsOneTrade : List Transaction :=
  [mkT "purchase" (some "A") none (some 0) (-1000),
   mkT "sale" (some "A") none (some 1440) 1500]

/-- A bonus record: no footballer, no counterparty. -/
def tBonus : Transaction := mkT "bonuses" none none (some 0) 250

/-- The key list of the grouping dict: first occurrences, in encounter order,
of the footballers of classified records. -/
def pKeys (ts : List Transaction) : List String := firstKeys (ts.filterMap keyOf)

/-- The key list of the trading-partner dict. -/
def partnerKeys (ts : List Transaction) : List String :=
  firstKeys (ts.filterMap partnerKeyOf)

/-- The key list of the type-breakdown dict: the kinds in encounter order. -/
def typeKeys (ts : List Transaction) : List String :=
  firstKeys (ts.map (fun t => t.type))

/-- The profitability qualification test of line 254, described
extensionally: both the sale-like and the purchase-like sublists of player
`p` are non-empty. -/
def qualifies (ts : List Transaction) (p : String) : Bool :=
  !(filtPD ts p).sales.isEmpty && !(filtPD ts p).purchases.isEmpty

/-- The squad qualification test of line 344, described extensionally. -/
def squadQual (ts : List Transaction) (p : String) : Bool :=
  (filtPD ts p).sales.isEmpty &&
    (!(filtPD ts p).purchases.isEmpty || !(filtPD ts p).clause_increases.isEmpty)

/-! Lemmas about the stable sort. -/

theorem mem_stableInsert {α : Type} (le : α → α → Bool) (x a : α) (l : List α) :
    a ∈ stableInsert le x l ↔ a = x ∨ a ∈ l := by
  induction l with
  | nil => simp [stableInsert]
  | cons y ys ih =>
    cases hxy : le x y with
    | true => simp [stableInsert, hxy]
    | false =>
      simp only [stableInsert, hxy, Bool.false_eq_true, if_false, List.mem_cons, ih]
      tauto

theorem length_stableInsert {α : Type} (le : α → α → Bool) (x : α) (l : List α) :
    (stableInsert le x l).length = l.length + 1 := by
  induction l with
  | nil => rfl
  | cons y ys ih =>
    cases hxy : le x y with
    | true => simp [stableInsert, hxy]
    | false => simp [stableInsert, hxy, ih]

theorem countP_stableInsert {α : Type} (le : α → α → Bool) (p : α → Bool) (x : α) (l : List α) :
    (stableInsert le x l).countP p = (x :: l).countP p := by
  induction l with
  | nil => rfl
  | cons y ys ih =>
    cases hxy : le x y with
    | true => simp [stableInsert, hxy]
    | false =>
      simp only [stableInsert, hxy, Bool.false_eq_true, if_false, List.countP_cons, ih]
      omega

theorem mem_stableSort {α : Type} (le : α → α → Bool) (a : α) (l : List α) :
    a ∈ stableSort le l ↔ a ∈ l := by
  induction l with
  | nil => simp [stableSort]
  | cons x xs ih => simp [stableSort, mem_stableInsert, ih]

theorem length_stableSort {α : Type} (le : α → α → Bool) (l : List α) :
    (stableSort le l).length = l.length := by
  induction l with
  | nil => rfl
  | cons x xs ih => simp [stableSort, length_stableInsert, ih]

theorem countP_stableSort {α : Type} (le : α → α → Bool) (p : α → Bool) (l : List α) :
    (stableSort le l).countP p = l.countP p := by
  induction l with
  | nil => rfl
  | cons x xs ih => simp [stableSort, countP_stableInsert, List.countP_cons, ih]

theorem pairwise_stableInsert {α : Type} (le : α → α → Bool)
    (htrans : ∀ a b c, le a b = true → le b c = true → le a c = true)
    (htot : ∀ a b, le a b = true ∨ le b a = true) (x : α) (l : List α)
    (h : l.Pairwise (fun a b => le a b = true)) :
    (stableInsert le x l).Pairwise (fun a b => le a b = true) := by
  induction l with
  | nil => simp [stableInsert]
  | cons y ys ih =>
    rcases List.pairwise_cons.mp h with ⟨hy, hys⟩
    cases hxy : le x y with
    | true =>
      simp only [stableInsert, hxy, if_true]
      refine List.pairwise_cons.mpr ⟨?_, h⟩
      intro z hz
      rcases List.mem_cons.mp hz with rfl | hz2
      · exact hxy
      · exact htrans x y z hxy (hy z hz2)
    | false =>
      simp only [stableInsert, hxy, Bool.false_eq_true, if_false]
      refine List.pairwise_cons.mpr ⟨?_, ih hys⟩
      intro z hz
      rcases (mem_stableInsert le x z ys).mp hz with hzx | hz2
      · subst hzx
        rcases htot z y with h2 | h2
        · rw [hxy] at h2
          exact Bool.noConfusion h2
        · exact h2
      · exact hy z hz2

theorem pairwise_stableSort {α : Type} (le : α → α → Bool)
    (htrans : ∀ a b c, le a b = true → le b c = true → le a c = true)
    (htot : ∀ a b, le a b = true ∨ le b a = true) (l : List α) :
    (stableSort le l).Pairwise (fun a b => le a b = true) := by
  induction l with
  | nil => simp [stableSort]
  | cons x xs ih => exact pairwise_stableInsert le htrans htot x _ ih

theorem stableSort_eq_of_pairwise {α : Type} (le : α → α → Bool) (l : List α)
    (h : l.Pairwise (fun a b => le a b = true)) :
    stableSort le l = l := by
  induction l with
  | nil => rfl
  | cons x xs ih =>
    rcases List.pairwise_cons.mp h with ⟨hx, hxs⟩
    rw [stableSort, ih hxs]
    cases xs with
    | nil => rfl
    | cons y ys => simp [stableInsert, hx y (List.mem_cons_self y ys)]

theorem filter_stableInsert {α : Type} (le : α → α → Bool) (q : α → Bool)
    (hq : ∀ a b, le a b = false → q a = true → q b = true → False) (x : α) (l : List α) :
    (stableInsert le x l).filter q = if q x then x :: l.filter q else l.filter q := by
  induction l with
  | nil =>
    cases hqx : q x with
    | true => simp [stableInsert, List.filter, hqx]
    | false => simp [stableInsert, List.filter, hqx]
  | cons y ys ih =>
    cases hxy : le x y with
    | true =>
      simp only [stableInsert, hxy, if_true, List.filter_cons]
    | false =>
      simp only [stableInsert, hxy, Bool.false_eq_true, if_false, List.filter_cons]
      cases hqx : q x with
      | true =>
        have hqy : q y = false := by
          cases hqy2 : q y with
          | true => exact absurd (hq x y hxy hqx hqy2) not_false
          | false => rfl
        simp [hqy, ih, hqx]
      | false =>
        cases hqy : q y with
        | true => simp [hqy, ih, hqx]
        | false => simp [hqy, ih, hqx]

theorem filter_stableSort {α : Type} (le : α → α → Bool) (q : α → Bool)
    (hq : ∀ a b, le a b = false → q a = true → q b = true → False) (l : List α) :
    (stableSort le l).filter q = l.filter q := by
  induction l with
  | nil => rfl
  | cons x xs ih =>
    rw [stableSort, filter_stableInsert le q hq, List.filter_cons, ih]

/-! Lemmas about association lists, key order, and the master description of
the defaultdict loops. -/

theorem memB_iff (k : String) (l : List String) : memB k l = true ↔ k ∈ l := by
  induction l with
  | nil => simp [memB]
  | cons x xs ih =>
    simp only [memB, Bool.or_eq_true, beq_iff_eq, ih, List.mem_cons]
    constructor
    · rintro (h | h)
      · exact Or.inl h.symm
      · exact Or.inr h
    · rintro (h | h)
      · exact Or.inl h.symm
      · exact Or.inr h

theorem memB_append (k : String) (l1 l2 : List String) :
    memB k (l1 ++ l2) = (memB k l1 || memB k l2) := by
  induction l1 with
  | nil => simp [memB]
  | cons x xs ih => simp [memB, ih, Bool.or_assoc]

theorem updateAssoc_of_not_mem {β : Type} (dflt : β) (m : List (String × β)) (k : String)
    (f : β → β) (h : k ∉ assocKeys m) :
    updateAssoc dflt m k f = m ++ [(k, f dflt)] := by
  induction m with
  | nil => rfl
  | cons kv rest ih =>
    simp only [assocKeys, List.map_cons, List.mem_cons] at h
    push_neg at h
    simp only [updateAssoc, if_neg (Ne.symm h.1), List.cons_append]
    rw [ih h.2]

theorem updateAssoc_of_mem {β : Type} (dflt : β) (m : List (String × β)) (k : String)
    (f : β → β) (hnd : (assocKeys m).Nodup) (h : k ∈ assocKeys m) :
    updateAssoc dflt m k f = m.map (fun kv => if kv.1 = k then (kv.1, f kv.2) else kv) := by
  induction m with
  | nil => cases h
  | cons kv rest ih =>
    simp only [assocKeys, List.map_cons, List.nodup_cons] at hnd
    by_cases hk : kv.1 = k
    · simp only [updateAssoc, if_pos hk, List.map_cons, if_pos hk]
      congr 1
      have h1 : ∀ kv2 ∈ rest, (if kv2.1 = k then (kv2.1, f kv2.2) else kv2) = kv2 := by
        intro kv2 hkv2
        have hne : kv2.1 ≠ k := by
          intro he
          apply hnd.1
          rw [hk, ← he]
          exact List.mem_map_of_mem Prod.fst hkv2
        rw [if_neg hne]
      rw [List.map_congr_left h1]
      simp
    · simp only [updateAssoc, if_neg hk, List.map_cons, if_neg hk]
      congr 1
      have h2 : k ∈ assocKeys rest := by
        rcases List.mem_cons.mp h with h1 | h1
        · exact absurd h1.symm hk
        · exact h1
      exact ih hnd.2 h2

theorem assocKeys_updateAssoc {β : Type} (dflt : β) (m : List (String × β)) (k : String)
    (f : β → β) :
    assocKeys (updateAssoc dflt m k f) =
      if k ∈ assocKeys m then assocKeys m else assocKeys m ++ [k] := by
  induction m with
  | nil => simp [updateAssoc, assocKeys]
  | cons kv rest ih =>
    simp only [updateAssoc]
    by_cases hk : kv.1 = k
    · rw [if_pos hk]
      have hmem : k ∈ assocKeys (kv :: rest) := by
        rw [← hk]
        exact List.mem_cons_self _ _
      rw [if_pos hmem]
      rfl
    · rw [if_neg hk]
      have hkeys : assocKeys (kv :: updateAssoc dflt rest k f)
          = kv.1 :: assocKeys (updateAssoc dflt rest k f) := rfl
      rw [hkeys, ih]
      have hiff : (k ∈ assocKeys (kv :: rest)) ↔ (k ∈ assocKeys rest) := by
        constructor
        · intro hm
          rcases List.mem_cons.mp hm with h1 | h1
          · exact absurd h1.symm hk
          · exact h1
        · exact fun hm => List.mem_cons_of_mem _ hm
      by_cases hmem : k ∈ assocKeys rest
      · rw [if_pos hmem, if_pos (hiff.mpr hmem)]
        rfl
      · rw [if_neg hmem, if_neg (fun hm => hmem (hiff.mp hm))]
        rfl

theorem nodup_assocKeys_updateAssoc {β : Type} (dflt : β) (m : List (String × β)) (k : String)
    (f : β → β) (hnd : (assocKeys m).Nodup) :
    (assocKeys (updateAssoc dflt m k f)).Nodup := by
  rw [assocKeys_updateAssoc]
  by_cases h : k ∈ assocKeys m
  · simp [h, hnd]
  · rw [if_neg h]
    refine List.Nodup.append hnd (List.nodup_singleton k) ?_
    intro a ha hak
    rw [List.mem_singleton.mp hak] at ha
    exact h ha

theorem mem_firstKeys (x : String) (l : List String) : x ∈ firstKeys l ↔ x ∈ l := by
  induction l with
  | nil => simp [firstKeys]
  | cons y ys ih =>
    simp only [firstKeys, List.mem_cons, List.mem_filter, ih, bne_iff_ne, ne_eq]
    by_cases hxy : x = y
    · simp [hxy]
    · simp [hxy]

theorem nodup_firstKeys (l : List String) : (firstKeys l).Nodup := by
  induction l with
  | nil => simp [firstKeys]
  | cons y ys ih =>
    simp only [firstKeys, List.nodup_cons]
    constructor
    · intro hmem
      have := (List.mem_filter.mp hmem).2
      simp at this
    · exact ih.filter _

theorem firstKeys_filter (p : String → Bool) (l : List String) :
    firstKeys (l.filter p) = (firstKeys l).filter p := by
  induction l with
  | nil => rfl
  | cons y ys ih =>
    cases hp : p y with
    | true =>
      rw [List.filter_cons, if_pos (by rw [hp])]
      simp only [firstKeys, ih]
      rw [List.filter_cons, if_pos (by rw [hp])]
      rw [List.filter_filter, List.filter_filter]
      exact congrArg (fun l => y :: l) (List.filter_congr (fun a _ => Bool.and_comm _ _))
    | false =>
      rw [List.filter_cons, if_neg (by rw [hp]; exact Bool.noConfusion)]
      rw [ih]
      simp only [firstKeys]
      rw [List.filter_cons, if_neg (by rw [hp]; exact Bool.noConfusion)]
      rw [List.filter_filter]
      apply List.filter_congr
      intro a _
      cases hpa : p a with
      | false => simp
      | true =>
        have hne : (a != y) = true := by
          have : a ≠ y := by
            intro he
            rw [he, hp] at hpa
            exact Bool.noConfusion hpa
          simpa using this
        simp [hne]

theorem lookupA_map_keys {β : Type} (g : String → β) (ks : List String) (k : String) :
    lookupA (ks.map (fun p => (p, g p))) k = if k ∈ ks then some (g k) else none := by
  induction ks with
  | nil => simp [lookupA]
  | cons x xs ih =>
    simp only [List.map_cons, lookupA]
    by_cases hx : x = k
    · subst hx
      simp
    · rw [if_neg hx, ih]
      by_cases hmem : k ∈ xs
      · simp [hmem, List.mem_cons]
      · have : k ∉ x :: xs := by
          simp only [List.mem_cons, not_or]
          exact ⟨fun he => hx he.symm, hmem⟩
        simp [hmem, this]

theorem foldl_assoc_master {β : Type} (dflt : β) (sel : Transaction → Option String)
    (app : Transaction → β → β) (step : List (String × β) → Transaction → List (String × β))
    (hnone : ∀ m t, sel t = none → step m t = m)
    (hsome : ∀ m t k, sel t = some k → step m t = updateAssoc dflt m k (app t))
    (ts : List Transaction) :
    ∀ (acc : List (String × β)), (assocKeys acc).Nodup →
      ts.foldl step acc =
        acc.map (fun kv =>
          (kv.1, (ts.filter (fun t => sel t == some kv.1)).foldl (fun b t => app t b) kv.2))
        ++ (firstKeys ((ts.filterMap sel).filter (fun k => !memB k (assocKeys acc)))).map
            (fun k => (k, (ts.filter (fun t => sel t == some k)).foldl (fun b t => app t b) dflt)) := by
  induction ts with
  | nil =>
    intro acc _
    simp only [List.foldl_nil, List.filterMap_nil, List.filter_nil, firstKeys, List.map_nil,
      List.append_nil]
    conv_lhs => rw [← List.map_id acc]
    apply List.map_congr_left
    intro kv _
    rfl
  | cons t ts ih =>
    intro acc hnd
    rw [List.foldl_cons]
    cases hsel : sel t with
    | none =>
      rw [hnone acc t hsel, ih acc hnd]
      have hfil : ∀ k, (t :: ts).filter (fun t2 => sel t2 == some k)
          = ts.filter (fun t2 => sel t2 == some k) := by
        intro k
        rw [List.filter_cons, if_neg (by rw [hsel]; exact Bool.noConfusion)]
      have hfm : (t :: ts).filterMap sel = ts.filterMap sel := by
        simp only [List.filterMap_cons, hsel]
      rw [hfm]
      congr 1
      · apply List.map_congr_left
        intro kv _
        rw [hfil]
      · apply List.map_congr_left
        intro k _
        rw [hfil]
    | some q =>
      rw [hsome acc t q hsel]
      have hfm : (t :: ts).filterMap sel = q :: ts.filterMap sel := by
        simp only [List.filterMap_cons, hsel]
      have hfilq : (t :: ts).filter (fun t2 => sel t2 == some q)
          = t :: ts.filter (fun t2 => sel t2 == some q) := by
        rw [List.filter_cons, if_pos (by rw [hsel]; exact beq_self_eq_true (some q))]
      have hfilne : ∀ k, k ≠ q → (t :: ts).filter (fun t2 => sel t2 == some k)
          = ts.filter (fun t2 => sel t2 == some k) := by
        intro k hkq
        rw [List.filter_cons, if_neg (by
          rw [hsel]
          simp only [Option.some.injEq, beq_iff_eq]
          exact fun h => hkq h.symm)]
      by_cases hq : q ∈ assocKeys acc
      · rw [updateAssoc_of_mem dflt acc q (app t) hnd hq]
        have hkeys : assocKeys (acc.map (fun kv => if kv.1 = q then (kv.1, app t kv.2) else kv))
            = assocKeys acc := by
          simp only [assocKeys, List.map_map]
          apply List.map_congr_left
          intro kv _
          by_cases h : kv.1 = q <;> simp [h]
        rw [ih _ (by rw [hkeys]; exact hnd), hkeys]
        congr 1
        · rw [List.map_map]
          apply List.map_congr_left
          intro kv _
          by_cases hkq : kv.1 = q
          · simp only [Function.comp_apply, if_pos hkq]
            rw [hkq, hfilq, List.foldl_cons]
          · simp only [Function.comp_apply, if_neg hkq]
            rw [hfilne kv.1 hkq]
        · rw [hfm, List.filter_cons,
            if_neg (by rw [(memB_iff q _).mpr hq]; exact Bool.noConfusion)]
          apply List.map_congr_left
          intro k hk
          have hknot : k ∉ assocKeys acc := by
            have h1 := (mem_firstKeys k _).mp hk
            have h2 := (List.mem_filter.mp h1).2
            intro hmem
            rw [(memB_iff k _).mpr hmem] at h2
            exact Bool.noConfusion h2
          have hkq : k ≠ q := fun he => hknot (he ▸ hq)
          rw [hfilne k hkq]
      · rw [updateAssoc_of_not_mem dflt acc q (app t) hq]
        have hkeys2 : assocKeys (acc ++ [(q, app t dflt)]) = assocKeys acc ++ [q] := by
          simp [assocKeys]
        have hnd2 : (assocKeys (acc ++ [(q, app t dflt)])).Nodup := by
          rw [hkeys2]
          refine List.Nodup.append hnd (List.nodup_singleton q) ?_
          intro a ha hak
          rw [List.mem_singleton.mp hak] at ha
          exact hq ha
        rw [ih _ hnd2, List.map_append, hkeys2, List.append_assoc]
        congr 1
        · apply List.map_congr_left
          intro kv hkv
          have hne : kv.1 ≠ q := by
            intro he
            exact hq (he ▸ List.mem_map_of_mem Prod.fst hkv)
          rw [hfilne kv.1 hne]
        · have hqb : memB q (assocKeys acc) = false := by
            cases hm : memB q (assocKeys acc) with
            | true => exact absurd ((memB_iff q _).mp hm) hq
            | false => rfl
          rw [hfm, List.filter_cons, if_pos (by rw [hqb]; rfl)]
          simp only [firstKeys, List.map_cons, List.map_nil, List.nil_append, List.cons_append]
          congr 1
          · rw [hfilq, List.foldl_cons]
          · rw [← firstKeys_filter, List.filter_filter]
            have hfeq : (ts.filterMap sel).filter
                  (fun k => (k != q) && !memB k (assocKeys acc)) =
                (ts.filterMap sel).filter (fun k => !memB k (assocKeys acc ++ [q])) := by
              apply List.filter_congr
              intro k _
              rw [memB_append]
              simp only [memB, Bool.or_false, Bool.not_or]
              by_cases hk : k = q
              · subst hk
                simp
              · have h1 : (k != q) = true := by simpa using hk
                have h2 : (q == k) = false := by
                  cases hc : (q == k) with
                  | true => exact absurd (beq_iff_eq.mp hc).symm hk
                  | false => rfl
                rw [h1, h2]
                simp [Bool.and_comm]
            rw [hfeq]
            apply List.map_congr_left
            intro k hk
            have hkq : k ≠ q := by
              have h1 := (mem_firstKeys k _).mp hk
              have h2 := (List.mem_filter.mp h1).2
              rw [memB_append] at h2
              intro he
              rw [he] at h2
              simp [memB] at h2
            rw [hfilne k hkq]

/-! Facts about the transaction-kind categories. -/

theorem isPurchase_vals (ty : String) (h : isPurchaseType ty = true) :
    ty = "purchase" ∨ ty = "buyout_signing" ∨ ty = "loan_purchase" := by
  have h2 := h
  simp only [isPurchaseType, Bool.or_eq_true, beq_iff_eq] at h2
  tauto

theorem isSale_vals (ty : String) (h : isSaleType ty = true) :
    ty = "sale" ∨ ty = "buyout_sale" ∨ ty = "loan_sale" := by
  have h2 := h
  simp only [isSaleType, Bool.or_eq_true, beq_iff_eq] at h2
  tauto

theorem purchase_not_sale (ty : String) (h : isPurchaseType ty = true) :
    isSaleType ty = false := by
  rcases isPurchase_vals ty h with rfl | rfl | rfl <;> rfl

theorem purchase_not_clause (ty : String) (h : isPurchaseType ty = true) :
    isClauseType ty = false := by
  rcases isPurchase_vals ty h with rfl | rfl | rfl <;> rfl

theorem sale_not_purchase (ty : String) (h : isSaleType ty = true) :
    isPurchaseType ty = false := by
  rcases isSale_vals ty h with rfl | rfl | rfl <;> rfl

theorem sale_not_clause (ty : String) (h : isSaleType ty = true) :
    isClauseType ty = false := by
  rcases isSale_vals ty h with rfl | rfl | rfl <;> rfl

theorem clause_not_purchase (ty : String) (h : isClauseType ty = true) :
    isPurchaseType ty = false := by
  have : ty = "clause_increase" := by simpa [isClauseType] using h
  subst this
  rfl

theorem clause_not_sale (ty : String) (h : isClauseType ty = true) :
    isSaleType ty = false := by
  have : ty = "clause_increase" := by simpa [isClauseType] using h
  subst this
  rfl

/-! The grouping loop step satisfies the master hypotheses. -/

theorem groupStep_eq_none (m : List (String × PlayerData)) (t : Transaction)
    (h : keyOf t = none) : groupStep m t = m := by
  cases hf : t.footballer with
  | none => simp only [groupStep, hf]
  | some name =>
    simp only [keyOf, hf] at h
    simp only [groupStep, hf]
    by_cases hn : name = ""
    · rw [if_pos hn]
    · rw [if_neg hn] at h
      by_cases hc : (isPurchaseType t.type || isSaleType t.type || isClauseType t.type) = true
      · rw [if_pos hc] at h
        exact absurd h (by simp)
      · have h1 : isPurchaseType t.type = false := by
          cases hp : isPurchaseType t.type
          · rfl
          · exact absurd (by rw [hp]; simp) hc
        have h2 : isSaleType t.type = false := by
          cases hp : isSaleType t.type
          · rfl
          · exact absurd (by rw [hp]; simp) hc
        have h3 : isClauseType t.type = false := by
          cases hp : isClauseType t.type
          · rfl
          · exact absurd (by rw [hp]; simp) hc
        rw [if_neg hn, h1, h2, h3]
        simp

theorem groupStep_eq_some (m : List (String × PlayerData)) (t : Transaction) (k : String)
    (h : keyOf t = some k) :
    groupStep m t = updateAssoc emptyPD m k (addPD t) := by
  cases hf : t.footballer with
  | none => simp [keyOf, hf] at h
  | some name =>
    simp only [keyOf, hf] at h
    by_cases hn : name = ""
    · rw [if_pos hn] at h
      exact absurd h (by simp)
    · rw [if_neg hn] at h
      by_cases hc : (isPurchaseType t.type || isSaleType t.type || isClauseType t.type) = true
      · rw [if_pos hc] at h
        have hk : name = k := by
          injection h
        subst hk
        by_cases h1 : isPurchaseType t.type = true
        · have e1 : addPD t = fun d => { d with purchases := d.purchases ++ [t] } := by
            funext d
            rw [addPD, if_pos h1]
          simp only [groupStep, hf, if_neg hn, h1, if_true, e1]
        · have h1f : isPurchaseType t.type = false := by
            cases hp : isPurchaseType t.type
            · rfl
            · exact absurd hp h1
          by_cases h2 : isSaleType t.type = true
          · have e2 : addPD t = fun d => { d with sales := d.sales ++ [t] } := by
              funext d
              rw [addPD, if_neg h1, if_pos h2]
            simp only [groupStep, hf, if_neg hn, h1f, h2, Bool.false_eq_true, if_false, if_true, e2]
          · have h2f : isSaleType t.type = false := by
              cases hp : isSaleType t.type
              · rfl
              · exact absurd hp h2
            have h3 : isClauseType t.type = true := by
              rw [h1f, h2f] at hc
              simpa using hc
            have e3 : addPD t = fun d =>
                { d with clause_increases := d.clause_increases ++ [t] } := by
              funext d
              rw [addPD, if_neg h1, if_neg h2, if_pos h3]
            simp only [groupStep, hf, if_neg hn, h1f, h2f, h3, Bool.false_eq_true, if_false,
              if_true, e3]
      · rw [if_neg hc] at h
        exact absurd h (by simp)

theorem isFor_true_iff (t : Transaction) (p : String) :
    isFor t p = true ↔ t.footballer = some p ∧ p ≠ "" := by
  unfold isFor
  rw [Bool.and_eq_true, beq_iff_eq, Bool.not_eq_true', beq_eq_false_iff_ne]

theorem keyOf_eq_some_of (t : Transaction) (p : String) (hf : t.footballer = some p)
    (hp : p ≠ "")
    (hc : (isPurchaseType t.type || isSaleType t.type || isClauseType t.type) = true) :
    keyOf t = some p := by
  simp only [keyOf, hf, if_neg hp, if_pos hc]

theorem keyOf_some_parts (t : Transaction) (p : String) (h : keyOf t = some p) :
    t.footballer = some p ∧ p ≠ "" ∧
      (isPurchaseType t.type || isSaleType t.type || isClauseType t.type) = true := by
  cases hf : t.footballer with
  | none => simp [keyOf, hf] at h
  | some name =>
    simp only [keyOf, hf] at h
    by_cases hn : name = ""
    · rw [if_pos hn] at h
      exact absurd h (by simp)
    · rw [if_neg hn] at h
      by_cases hc : (isPurchaseType t.type || isSaleType t.type || isClauseType t.type) = true
      · rw [if_pos hc] at h
        have he : name = p := by injection h
        subst he
        exact ⟨by simp [hf], hn, hc⟩
      · rw [if_neg hc] at h
        exact absurd h (by simp)

theorem isFor_of_keyOf (t : Transaction) (p : String) (h : keyOf t = some p) :
    isFor t p = true := by
  rcases keyOf_some_parts t p h with ⟨hf, hp, _⟩
  exact (isFor_true_iff t p).mpr ⟨hf, hp⟩

theorem isFor_cat_false (t : Transaction) (p : String) (c : String → Bool)
    (hc : ∀ ty, c ty = true → (isPurchaseType ty || isSaleType ty || isClauseType ty) = true)
    (h : ¬ keyOf t = some p) :
    (isFor t p && c t.type) = false := by
  cases hct : c t.type with
  | false => simp
  | true =>
    cases hfor : isFor t p with
    | false => simp
    | true =>
      exfalso
      apply h
      have h2 := (isFor_true_iff t p).mp hfor
      exact keyOf_eq_some_of t p h2.1 h2.2 (hc _ hct)

theorem foldPD_filter (ts : List Transaction) (p : String) :
    ∀ d0 : PlayerData,
      (ts.filter (fun t => keyOf t == some p)).foldl (fun d t => addPD t d) d0 =
        ⟨d0.purchases ++ (filtPD ts p).purchases, d0.sales ++ (filtPD ts p).sales,
          d0.clause_increases ++ (filtPD ts p).clause_increases⟩ := by
  induction ts with
  | nil =>
    intro d0
    simp only [List.filter_nil, List.foldl_nil, filtPD, List.append_nil]
  | cons t ts ih =>
    intro d0
    by_cases hk : keyOf t = some p
    · rw [List.filter_cons, if_pos (by simp [hk]), List.foldl_cons, ih (addPD t d0)]
      have hfor := isFor_of_keyOf t p hk
      by_cases h1 : isPurchaseType t.type = true
      · have e1 : addPD t d0 = { d0 with purchases := d0.purchases ++ [t] } := by
          rw [addPD, if_pos h1]
        have f1 : (isFor t p && isPurchaseType t.type) = true := by
          rw [hfor, h1]
          rfl
        have f2 : (isFor t p && isSaleType t.type) = false := by
          rw [purchase_not_sale t.type h1]
          simp
        have f3 : (isFor t p && isClauseType t.type) = false := by
          rw [purchase_not_clause t.type h1]
          simp
        simp only [filtPD, e1, List.filter_cons, f1, f2, f3, if_true, Bool.false_eq_true,
          if_false]
        simp [List.append_assoc]
      · have h1f : isPurchaseType t.type = false := by
          cases hp : isPurchaseType t.type
          · rfl
          · exact absurd hp h1
        by_cases h2 : isSaleType t.type = true
        · have e2 : addPD t d0 = { d0 with sales := d0.sales ++ [t] } := by
            rw [addPD, if_neg h1, if_pos h2]
          have f1 : (isFor t p && isPurchaseType t.type) = false := by
            rw [h1f]
            simp
          have f2 : (isFor t p && isSaleType t.type) = true := by
            rw [hfor, h2]
            rfl
          have f3 : (isFor t p && isClauseType t.type) = false := by
            rw [sale_not_clause t.type h2]
            simp
          simp only [filtPD, e2, List.filter_cons, f1, f2, f3, if_true, Bool.false_eq_true,
            if_false]
          simp [List.append_assoc]
        · have h2f : isSaleType t.type = false := by
            cases hp : isSaleType t.type
            · rfl
            · exact absurd hp h2
          have h3 : isClauseType t.type = true := by
            rcases keyOf_some_parts t p hk with ⟨_, _, hc⟩
            rw [h1f, h2f] at hc
            simpa using hc
          have e3 : addPD t d0 = { d0 with clause_increases := d0.clause_increases ++ [t] } := by
            rw [addPD, if_neg h1, if_neg h2, if_pos h3]
          have f1 : (isFor t p && isPurchaseType t.type) = false := by
            rw [h1f]
            simp
          have f2 : (isFor t p && isSaleType t.type) = false := by
            rw [h2f]
            simp
          have f3 : (isFor t p && isClauseType t.type) = true := by
            rw [hfor, h3]
            rfl
          simp only [filtPD, e3, List.filter_cons, f1, f2, f3, if_true, Bool.false_eq_true,
            if_false]
          simp [List.append_assoc]
    · rw [List.filter_cons, if_neg (by simp [hk]), ih d0]
      have f1 : (isFor t p && isPurchaseType t.type) = false :=
        isFor_cat_false t p isPurchaseType (fun ty h => by rw [h]; rfl) hk
      have f2 : (isFor t p && isSaleType t.type) = false :=
        isFor_cat_false t p isSaleType (fun ty h => by rw [h]; simp) hk
      have f3 : (isFor t p && isClauseType t.type) = false :=
        isFor_cat_false t p isClauseType (fun ty h => by rw [h]; simp) hk
      simp only [filtPD, List.filter_cons, f1, f2, f3, Bool.false_eq_true, if_false]

theorem player_transactions_eq (ts : List Transaction) :
    player_transactions ts = (pKeys ts).map (fun p => (p, filtPD ts p)) := by
  unfold player_transactions pKeys
  rw [foldl_assoc_master emptyPD keyOf addPD groupStep groupStep_eq_none groupStep_eq_some ts []
    (by simp [assocKeys])]
  simp only [List.map_nil, List.nil_append, assocKeys, memB, Bool.not_false]
  rw [List.filter_true]
  apply List.map_congr_left
  intro p _
  rw [foldPD_filter ts p emptyPD]
  simp [emptyPD, filtPD]

/-! The trading-partner loop: master hypotheses and fold evaluation. -/

theorem partnerBuy_vals (ty : String) (h : isPartnerBuy ty = true) :
    ty = "buyout_signing" ∨ ty = "loan_purchase" := by
  have h2 := h
  simp only [isPartnerBuy, Bool.or_eq_true, beq_iff_eq] at h2
  exact h2

theorem partnerSell_vals (ty : String) (h : isPartnerSell ty = true) :
    ty = "buyout_sale" ∨ ty = "loan_sale" := by
  have h2 := h
  simp only [isPartnerSell, Bool.or_eq_true, beq_iff_eq] at h2
  exact h2

theorem partnerBuy_not_sell (ty : String) (h : isPartnerBuy ty = true) :
    isPartnerSell ty = false := by
  rcases partnerBuy_vals ty h with rfl | rfl <;> rfl

theorem isPart_true_iff (t : Transaction) (k : String) :
    isPart t k = true ↔ t.league_player_associated = some k ∧ k ≠ "" := by
  unfold isPart
  rw [Bool.and_eq_true, beq_iff_eq, Bool.not_eq_true', beq_eq_false_iff_ne]

theorem partnerKeyOf_eq_some_of (t : Transaction) (k : String)
    (hf : t.league_player_associated = some k) (hp : k ≠ "")
    (hc : (isPartnerBuy t.type || isPartnerSell t.type) = true) :
    partnerKeyOf t = some k := by
  simp only [partnerKeyOf, hf, if_neg hp, if_pos hc]

theorem partnerKeyOf_some_parts (t : Transaction) (k : String) (h : partnerKeyOf t = some k) :
    t.league_player_associated = some k ∧ k ≠ "" ∧
      (isPartnerBuy t.type || isPartnerSell t.type) = true := by
  cases hf : t.league_player_associated with
  | none => simp [partnerKeyOf, hf] at h
  | some name =>
    simp only [partnerKeyOf, hf] at h
    by_cases hn : name = ""
    · rw [if_pos hn] at h
      exact absurd h (by simp)
    · rw [if_neg hn] at h
      by_cases hc : (isPartnerBuy t.type || isPartnerSell t.type) = true
      · rw [if_pos hc] at h
        have he : name = k := by injection h
        subst he
        exact ⟨by simp [hf], hn, hc⟩
      · rw [if_neg hc] at h
        exact absurd h (by simp)

theorem isPart_of_partnerKeyOf (t : Transaction) (k : String) (h : partnerKeyOf t = some k) :
    isPart t k = true := by
  rcases partnerKeyOf_some_parts t k h with ⟨hf, hp, _⟩
  exact (isPart_true_iff t k).mpr ⟨hf, hp⟩

theorem isPart_cat_false (t : Transaction) (k : String) (c : String → Bool)
    (hc : ∀ ty, c ty = true → (isPartnerBuy ty || isPartnerSell ty) = true)
    (h : ¬ partnerKeyOf t = some k) :
    (isPart t k && c t.type) = false := by
  cases hct : c t.type with
  | false => simp
  | true =>
    cases hfor : isPart t k with
    | false => simp
    | true =>
      exfalso
      apply h
      have h2 := (isPart_true_iff t k).mp hfor
      exact partnerKeyOf_eq_some_of t k h2.1 h2.2 (hc _ hct)

theorem partnerStep_eq_none (m : List (String × PartnerData)) (t : Transaction)
    (h : partnerKeyOf t = none) : partnerStep m t = m := by
  cases hf : t.league_player_associated with
  | none => simp only [partnerStep, hf]
  | some name =>
    simp only [partnerKeyOf, hf] at h
    simp only [partnerStep, hf]
    by_cases hn : name = ""
    · rw [if_pos hn]
    · rw [if_neg hn] at h
      by_cases hc : (isPartnerBuy t.type || isPartnerSell t.type) = true
      · rw [if_pos hc] at h
        exact absurd h (by simp)
      · have h1 : isPartnerBuy t.type = false := by
          cases hp : isPartnerBuy t.type
          · rfl
          · exact absurd (by rw [hp]; simp) hc
        have h2 : isPartnerSell t.type = false := by
          cases hp : isPartnerSell t.type
          · rfl
          · exact absurd (by rw [hp]; simp) hc
        rw [if_neg hn, h1, h2]
        simp

theorem partnerStep_eq_some (m : List (String × PartnerData)) (t : Transaction) (k : String)
    (h : partnerKeyOf t = some k) :
    partnerStep m t = updateAssoc ⟨0, 0, 0, 0⟩ m k (addPartner t) := by
  cases hf : t.league_player_associated with
  | none => simp [partnerKeyOf, hf] at h
  | some name =>
    simp only [partnerKeyOf, hf] at h
    by_cases hn : name = ""
    · rw [if_pos hn] at h
      exact absurd h (by simp)
    · rw [if_neg hn] at h
      by_cases hc : (isPartnerBuy t.type || isPartnerSell t.type) = true
      · rw [if_pos hc] at h
        have hk : name = k := by injection h
        subst hk
        by_cases h1 : isPartnerBuy t.type = true
        · have e1 : addPartner t = fun d =>
              { d with purchases := d.purchases + 1, spent := d.spent + |t.amount| } := by
            funext d
            rw [addPartner, if_pos h1]
          simp only [partnerStep, hf, if_neg hn, h1, if_true, e1]
        · have h1f : isPartnerBuy t.type = false := by
            cases hp : isPartnerBuy t.type
            · rfl
            · exact absurd hp h1
          have h2 : isPartnerSell t.type = true := by
            rw [h1f] at hc
            simpa using hc
          have e2 : addPartner t = fun d =>
              { d with sales := d.sales + 1, earned := d.earned + t.amount } := by
            funext d
            rw [addPartner, if_neg h1, if_pos h2]
          simp only [partnerStep, hf, if_neg hn, h1f, h2, Bool.false_eq_true, if_false, if_true,
            e2]
      · rw [if_neg hc] at h
        exact absurd h (by simp)

theorem sumAbs_cons (t : Transaction) (l : List Transaction) :
    sumAbs (t :: l) = |t.amount| + sumAbs l := by
  simp [sumAbs]

theorem sumAmt_cons (t : Transaction) (l : List Transaction) :
    sumAmt (t :: l) = t.amount + sumAmt l := by
  simp [sumAmt]

theorem foldPartner_filter (ts : List Transaction) (k : String) :
    ∀ d0 : PartnerData,
      (ts.filter (fun t => partnerKeyOf t == some k)).foldl (fun d t => addPartner t d) d0 =
        ⟨d0.purchases + (filtPartner ts k).purchases, d0.sales + (filtPartner ts k).sales,
          d0.spent + (filtPartner ts k).spent, d0.earned + (filtPartner ts k).earned⟩ := by
  induction ts with
  | nil =>
    intro d0
    simp [filtPartner, sumAbs, sumAmt]
  | cons t ts ih =>
    intro d0
    by_cases hk : partnerKeyOf t = some k
    · rw [List.filter_cons, if_pos (by simp [hk]), List.foldl_cons, ih (addPartner t d0)]
      have hfor := isPart_of_partnerKeyOf t k hk
      by_cases h1 : isPartnerBuy t.type = true
      · have e1 : addPartner t d0 =
            { d0 with purchases := d0.purchases + 1, spent := d0.spent + |t.amount| } := by
          rw [addPartner, if_pos h1]
        have f1 : (isPart t k && isPartnerBuy t.type) = true := by
          rw [hfor, h1]
          rfl
        have f2 : (isPart t k && isPartnerSell t.type) = false := by
          rw [partnerBuy_not_sell t.type h1]
          simp
        simp only [filtPartner, e1, List.filter_cons, f1, f2, if_true, Bool.false_eq_true,
          if_false, List.length_cons, sumAbs_cons]
        refine congrArg₂ (fun a b => PartnerData.mk a _ b _) ?_ ?_
        · omega
        · rw [add_assoc]
      · have h1f : isPartnerBuy t.type = false := by
          cases hp : isPartnerBuy t.type
          · rfl
          · exact absurd hp h1
        have h2 : isPartnerSell t.type = true := by
          rcases partnerKeyOf_some_parts t k hk with ⟨_, _, hc⟩
          rw [h1f] at hc
          simpa using hc
        have e2 : addPartner t d0 =
            { d0 with sales := d0.sales + 1, earned := d0.earned + t.amount } := by
          rw [addPartner, if_neg h1, if_pos h2]
        have f1 : (isPart t k && isPartnerBuy t.type) = false := by
          rw [h1f]
          simp
        have f2 : (isPart t k && isPartnerSell t.type) = true := by
          rw [hfor, h2]
          rfl
        simp only [filtPartner, e2, List.filter_cons, f1, f2, if_true, Bool.false_eq_true,
          if_false, List.length_cons, sumAmt_cons]
        refine congrArg₂ (fun a b => PartnerData.mk _ a _ b) ?_ ?_
        · omega
        · rw [add_assoc]
    · rw [List.filter_cons, if_neg (by simp [hk]), ih d0]
      have f1 : (isPart t k && isPartnerBuy t.type) = false :=
        isPart_cat_false t k isPartnerBuy (fun ty h => by rw [h]; rfl) hk
      have f2 : (isPart t k && isPartnerSell t.type) = false :=
        isPart_cat_false t k isPartnerSell (fun ty h => by rw [h]; simp) hk
      simp only [filtPartner, List.filter_cons, f1, f2, Bool.false_eq_true, if_false]

theorem partnerAcc_eq (ts : List Transaction) :
    partnerAcc ts = (partnerKeys ts).map (fun k => (k, filtPartner ts k)) := by
  unfold partnerAcc partnerKeys
  rw [foldl_assoc_master ⟨0, 0, 0, 0⟩ partnerKeyOf addPartner partnerStep partnerStep_eq_none
    partnerStep_eq_some ts [] (by simp [assocKeys])]
  simp only [List.map_nil, List.nil_append, assocKeys, memB, Bool.not_false]
  rw [List.filter_true]
  apply List.map_congr_left
  intro k _
  rw [foldPartner_filter ts k ⟨0, 0, 0, 0⟩]
  simp

/-! The type-breakdown loop: master hypotheses and fold evaluation. -/

theorem typeStep_eq_some (m : List (String × (Nat × Int))) (t : Transaction) (k : String)
    (h : (some t.type : Option String) = some k) :
    typeStep m t = updateAssoc (0, 0) m k (fun ct => (ct.1 + 1, ct.2 + t.amount)) := by
  have he : t.type = k := by injection h
  subst he
  rfl

theorem foldType_filter (ts : List Transaction) (k : String) :
    ∀ c0 : Nat × Int,
      (ts.filter (fun t => (some t.type : Option String) == some k)).foldl
        (fun ct t => (ct.1 + 1, ct.2 + t.amount)) c0 =
        (c0.1 + (ts.filter (fun t => t.type == k)).length,
          c0.2 + sumAmt (ts.filter (fun t => t.type == k))) := by
  induction ts with
  | nil =>
    intro c0
    simp [sumAmt]
  | cons t ts ih =>
    intro c0
    by_cases hk : (t.type == k) = true
    · have hcond : ((some t.type : Option String) == some k) = true := hk
      rw [List.filter_cons, if_pos hcond, List.foldl_cons, ih]
      simp only [List.filter_cons, hk, if_true, List.length_cons, sumAmt_cons]
      refine congrArg₂ (fun a b => Prod.mk a b) ?_ ?_
      · omega
      · rw [add_assoc]
    · have hcond : ¬ ((some t.type : Option String) == some k) = true := hk
      rw [List.filter_cons, if_neg hcond, ih]
      simp only [List.filter_cons, hk, Bool.false_eq_true, if_false]

theorem filterMap_some_map {α β : Type} (g : α → β) (l : List α) :
    l.filterMap (fun a => some (g a)) = l.map g := by
  induction l with
  | nil => rfl
  | cons x xs ih => simp [List.filterMap_cons, ih]

theorem typeAcc_eq (ts : List Transaction) :
    typeAcc ts = (typeKeys ts).map (fun k =>
      (k, ((ts.filter (fun t => t.type == k)).length,
        sumAmt (ts.filter (fun t => t.type == k))))) := by
  unfold typeAcc typeKeys
  rw [foldl_assoc_master (0, 0) (fun t => some t.type)
    (fun t ct => (ct.1 + 1, ct.2 + t.amount)) typeStep
    (fun _ _ h => absurd h (by simp)) typeStep_eq_some ts [] (by simp [assocKeys])]
  simp only [List.map_nil, List.nil_append, assocKeys, memB, Bool.not_false]
  rw [List.filter_true, filterMap_some_map]
  apply List.map_congr_left
  intro k _
  rw [foldType_filter ts k (0, 0)]
  simp

/-! Characterizations of the derived per-player and per-kind lists. -/

theorem bnot_isEmpty_iff {α : Type} (l : List α) : (!l.isEmpty) = true ↔ l ≠ [] := by
  cases l <;> simp

theorem filterMap_if_map {α β : Type} (p : α → Bool) (f : α → β) (l : List α) :
    l.filterMap (fun a => if p a then some (f a) else none) = (l.filter p).map f := by
  induction l with
  | nil => rfl
  | cons x xs ih =>
    by_cases h : p x = true
    · simp only [List.filterMap_cons, List.filter_cons, h, if_true, List.map_cons, ih]
    · have h2 : p x = false := by
        cases hp : p x
        · rfl
        · exact absurd hp h
      simp only [List.filterMap_cons, List.filter_cons, h2, Bool.false_eq_true, if_false, ih]

theorem profitPre_eq (ts : List Transaction) :
    profitPre ts = ((pKeys ts).filter (fun p => qualifies ts p)).map
      (fun p => mkProfitEntry p (filtPD ts p)) := by
  unfold profitPre
  rw [player_transactions_eq, List.filterMap_map]
  exact filterMap_if_map (fun p => qualifies ts p) (fun p => mkProfitEntry p (filtPD ts p)) _

theorem squadPre_eq (ts : List Transaction) :
    squadPre ts = ((pKeys ts).filter (fun p => squadQual ts p)).map
      (fun p => mkSquadEntry p (filtPD ts p)) := by
  unfold squadPre
  rw [player_transactions_eq, List.filterMap_map]
  exact filterMap_if_map (fun p => squadQual ts p) (fun p => mkSquadEntry p (filtPD ts p)) _

theorem mem_pKeys_of_filter (ts : List Transaction) (p : String) (t : Transaction)
    (c : String → Bool)
    (hc : ∀ ty, c ty = true → (isPurchaseType ty || isSaleType ty || isClauseType ty) = true)
    (hmem : t ∈ ts) (hp : (isFor t p && c t.type) = true) : p ∈ pKeys ts := by
  rw [pKeys, mem_firstKeys, List.mem_filterMap]
  refine ⟨t, hmem, ?_⟩
  rw [Bool.and_eq_true] at hp
  rcases hp with ⟨h1, h2⟩
  rcases (isFor_true_iff t p).mp h1 with ⟨hf, hpne⟩
  exact keyOf_eq_some_of t p hf hpne (hc _ h2)

theorem mem_profitPre_iff (ts : List Transaction) (p : String) :
    (∃ e ∈ profitPre ts, e.player = p) ↔
      (ts.filter (fun t => isFor t p && isPurchaseType t.type) ≠ [] ∧
        ts.filter (fun t => isFor t p && isSaleType t.type) ≠ []) := by
  rw [profitPre_eq]
  constructor
  · rintro ⟨e, he, hep⟩
    rcases List.mem_map.mp he with ⟨q, hq, rfl⟩
    have hqp : q = p := hep
    subst hqp
    rcases List.mem_filter.mp hq with ⟨_, hqual⟩
    simp only [qualifies, Bool.and_eq_true] at hqual
    rcases hqual with ⟨hs, hpur⟩
    exact ⟨(bnot_isEmpty_iff _).mp hpur, (bnot_isEmpty_iff _).mp hs⟩
  · rintro ⟨h1, h2⟩
    refine ⟨mkProfitEntry p (filtPD ts p), ?_, rfl⟩
    apply List.mem_map_of_mem
    rw [List.mem_filter]
    constructor
    · obtain ⟨t, ht⟩ := List.exists_mem_of_ne_nil _ h1
      rcases List.mem_filter.mp ht with ⟨hmem, hp⟩
      exact mem_pKeys_of_filter ts p t isPurchaseType (fun ty h => by rw [h]; rfl) hmem hp
    · unfold qualifies
      rw [Bool.and_eq_true]
      exact ⟨(bnot_isEmpty_iff _).mpr h2, (bnot_isEmpty_iff _).mpr h1⟩

theorem mem_squadPre_iff (ts : List Transaction) (p : String) :
    (∃ e ∈ squadPre ts, e.player = p) ↔
      (ts.filter (fun t => isFor t p && isSaleType t.type) = [] ∧
        (ts.filter (fun t => isFor t p && isPurchaseType t.type) ≠ [] ∨
          ts.filter (fun t => isFor t p && isClauseType t.type) ≠ [])) := by
  rw [squadPre_eq]
  constructor
  · rintro ⟨e, he, hep⟩
    rcases List.mem_map.mp he with ⟨q, hq, rfl⟩
    have hqp : q = p := hep
    subst hqp
    rcases List.mem_filter.mp hq with ⟨_, hqual⟩
    simp only [squadQual, Bool.and_eq_true] at hqual
    rcases hqual with ⟨hs, hor⟩
    refine ⟨List.isEmpty_iff.mp hs, ?_⟩
    rw [Bool.or_eq_true] at hor
    rcases hor with h | h
    · exact Or.inl ((bnot_isEmpty_iff _).mp h)
    · exact Or.inr ((bnot_isEmpty_iff _).mp h)
  · rintro ⟨h1, h2⟩
    refine ⟨mkSquadEntry p (filtPD ts p), ?_, rfl⟩
    apply List.mem_map_of_mem
    rw [List.mem_filter]
    constructor
    · rcases h2 with h | h
      · obtain ⟨t, ht⟩ := List.exists_mem_of_ne_nil _ h
        rcases List.mem_filter.mp ht with ⟨hmem, hp⟩
        exact mem_pKeys_of_filter ts p t isPurchaseType (fun ty hh => by rw [hh]; rfl) hmem hp
      · obtain ⟨t, ht⟩ := List.exists_mem_of_ne_nil _ h
        rcases List.mem_filter.mp ht with ⟨hmem, hp⟩
        exact mem_pKeys_of_filter ts p t isClauseType (fun ty hh => by rw [hh]; simp) hmem hp
    · unfold squadQual
      rw [Bool.and_eq_true]
      refine ⟨List.isEmpty_iff.mpr h1, ?_⟩
      rw [Bool.or_eq_true]
      rcases h2 with h | h
      · exact Or.inl ((bnot_isEmpty_iff _).mpr h)
      · exact Or.inr ((bnot_isEmpty_iff _).mpr h)

theorem mem_profitPre_elim (ts : List Transaction) (e : ProfitEntry) (he : e ∈ profitPre ts) :
    ∃ p, e = mkProfitEntry p (filtPD ts p) ∧ qualifies ts p = true ∧ p ∈ pKeys ts := by
  rw [profitPre_eq] at he
  rcases List.mem_map.mp he with ⟨q, hq, rfl⟩
  rcases List.mem_filter.mp hq with ⟨hk, hqual⟩
  exact ⟨q, rfl, hqual, hk⟩

theorem mem_squadPre_elim (ts : List Transaction) (e : SquadEntry) (he : e ∈ squadPre ts) :
    ∃ p, e = mkSquadEntry p (filtPD ts p) ∧ squadQual ts p = true ∧ p ∈ pKeys ts := by
  rw [squadPre_eq] at he
  rcases List.mem_map.mp he with ⟨q, hq, rfl⟩
  rcases List.mem_filter.mp hq with ⟨hk, hqual⟩
  exact ⟨q, rfl, hqual, hk⟩

theorem pKeys_ne_empty_string (ts : List Transaction) (p : String) (h : p ∈ pKeys ts) :
    p ≠ "" := by
  rw [pKeys, mem_firstKeys, List.mem_filterMap] at h
  rcases h with ⟨t, _, hk⟩
  exact (keyOf_some_parts t p hk).2.1

theorem type_summary_eq (ts : List Transaction) :
    type_summary ts = (typeKeys ts).map (fun k =>
      (k, ⟨(ts.filter (fun t => t.type == k)).length,
        sumAmt (ts.filter (fun t => t.type == k)),
        if 0 < (ts.filter (fun t => t.type == k)).length then
          (sumAmt (ts.filter (fun t => t.type == k)) : ℚ) /
            ((ts.filter (fun t => t.type == k)).length : ℚ)
        else 0⟩)) := by
  unfold type_summary
  rw [typeAcc_eq, List.map_map]
  apply List.map_congr_left
  intro k _
  rfl

theorem typeCountAt_eq (ts : List Transaction) (k : String) :
    typeCountAt ts k = (ts.filter (fun t => t.type == k)).length := by
  unfold typeCountAt
  rw [type_summary_eq, lookupA_map_keys]
  by_cases h : k ∈ typeKeys ts
  · rw [if_pos h]
  · rw [if_neg h]
    have hnil : ts.filter (fun t => t.type == k) = [] := by
      rw [List.filter_eq_nil_iff]
      intro t ht hbt
      apply h
      rw [typeKeys, mem_firstKeys, List.mem_map]
      exact ⟨t, ht, beq_iff_eq.mp hbt⟩
    rw [hnil]
    rfl

/-! Order facts for the descending/ascending key sorts. -/

theorem descKey_trans {α κ : Type} [LinearOrder κ] (key : α → κ) (a b c : α)
    (h1 : decide (key b ≤ key a) = true) (h2 : decide (key c ≤ key b) = true) :
    decide (key c ≤ key a) = true := by
  rw [decide_eq_true_iff] at h1 h2 ⊢
  exact le_trans h2 h1

theorem descKey_tot {α κ : Type} [LinearOrder κ] (key : α → κ) (a b : α) :
    decide (key b ≤ key a) = true ∨ decide (key a ≤ key b) = true := by
  rw [decide_eq_true_iff, decide_eq_true_iff]
  exact le_total (key b) (key a)

theorem ascKey_trans {α κ : Type} [LinearOrder κ] (key : α → κ) (a b c : α)
    (h1 : decide (key a ≤ key b) = true) (h2 : decide (key b ≤ key c) = true) :
    decide (key a ≤ key c) = true := by
  rw [decide_eq_true_iff] at h1 h2 ⊢
  exact le_trans h1 h2

theorem ascKey_tot {α κ : Type} [LinearOrder κ] (key : α → κ) (a b : α) :
    decide (key a ≤ key b) = true ∨ decide (key b ≤ key a) = true := by
  rw [decide_eq_true_iff, decide_eq_true_iff]
  exact le_total (key a) (key b)

theorem descKey_stab {α κ : Type} [LinearOrder κ] [BEq κ] [LawfulBEq κ] (key : α → κ) (k : κ) :
    ∀ a b, decide (key b ≤ key a) = false → (key a == k) = true → (key b == k) = true →
      False := by
  intro a b hle ha hb
  rw [decide_eq_false_iff_not] at hle
  rw [beq_iff_eq] at ha hb
  exact hle (le_of_eq (by rw [ha, hb]))

/-! Inversion of a successful engine run. -/

theorem analyze_ok_elim (ts : List Transaction) (a : Analytics)
    (h : analyze ts = Except.ok a) :
    ∃ hr, roiScan (player_transactions ts) = Except.ok hr ∧ a = mkAnalytics ts hr := by
  rw [analyze] at h
  cases hscan : roiScan (player_transactions ts) with
  | error e =>
    rw [hscan] at h
    simp at h
  | ok hr =>
    rw [hscan] at h
    simp only [] at h
    refine ⟨hr, rfl, ?_⟩
    injection h with h2
    exact h2.symm

/-! Claim theorems. -/

/-- C9: on the empty input sequence the engine produces a fully defined result
with no exception: every output list is empty, the type-summary mapping is
empty, and every numeric rollup (total profitability, squad investment,
average hold time, win rate, trade counts, clause totals) is 0. -/
theorem c9_empty_input :
    analyze [] = Except.ok
      { player_profitability := [], total_profitability := 0, top_buyout_signings := [],
        top_buyout_sales := [], type_summary := [], top_trading_partners := [],
        biggest_losses := [], best_deals := [],
        clause_increase_summary := { total_count := 0, total_cost := 0, avg_cost := 0 },
        current_squad := [], current_squad_total_investment := 0, average_hold_time := 0,
        roi_data := [], best_roi_players := [], worst_roi_players := [], win_rate := 0,
        total_trades := 0, profitable_trades := 0, losing_trades := 0 } := rfl

/-- C1: the claim says the engine never raises and that a profitability-
qualifying player with missing timestamps is merely excluded from the
hold-time/ROI computation.  The code violates this: for a player with one
purchase and one sale whose timestamps are both absent, the generator
`(t['date_full'] for t in data['purchases'] if t['date_full'])` is empty and
`min()` raises `ValueError` (the `if first_purchase_date and last_sale_date`
guard on line 368 is dead code, since `min`/`max` either raise or return a
truthy datetime).  This theorem evaluates the engine at that failing input. -/
theorem c1_missing_timestamps_raise :
    analyze tsMissingDates = Except.error "min() arg is an empty sequence" := rfl

/-- C2 (counterexample): the claim describes `worst_roi_players` as the last
20 entries of the full ROI list sorted ascending, so that zero/positive-ROI
entries are included when fewer than 20 players have negative ROI.  On an
input with a single zero-ROI completed trade, the code produces an empty
`worst_roi_players` (it filters to `roi_percentage < 0` before slicing),
while the claimed construction produces the one zero-ROI entry. -/
theorem c2_counterexample :
    (analyze tsZeroSpent).isOk = true ∧
      (analyzeD tsZeroSpent).worst_roi_players ≠
        worstRoiClaimed (analyzeD tsZeroSpent).roi_data := by
  constructor
  · rfl
  · decide

/-- C2 (amended): `worst_roi_players` consists only of entries with
`roi_percentage < 0`: it is the last-20 slice of the negative-ROI sublist of
the descending-sorted ROI list, and when at most 20 entries are negative it
is exactly that sublist — zero/positive entries never appear.
`best_roi_players` is the first-20 slice of the positive-ROI sublist of the
same descending-sorted list. -/
theorem c2_amended_roi_slices (ts : List Transaction) (a : Analytics)
    (h : analyze ts = Except.ok a) :
    (∀ e ∈ a.worst_roi_players, e.roi_percentage < 0) ∧
    (∀ e ∈ a.best_roi_players, 0 < e.roi_percentage) ∧
    a.worst_roi_players =
      (a.roi_data.filter (fun e => decide (e.roi_percentage < 0))).drop
        ((a.roi_data.filter (fun e => decide (e.roi_percentage < 0))).length - 20) ∧
    ((a.roi_data.filter (fun e => decide (e.roi_percentage < 0))).length ≤ 20 →
      a.worst_roi_players = a.roi_data.filter (fun e => decide (e.roi_percentage < 0))) ∧
    a.best_roi_players = (a.roi_data.filter (fun e => decide (0 < e.roi_percentage))).take 20 ∧
    a.roi_data.Pairwise (fun x y => y.roi_percentage ≤ x.roi_percentage) := by
  rcases analyze_ok_elim ts a h with ⟨hr, _, rfl⟩
  simp only [mkAnalytics]
  refine ⟨?_, ?_, trivial, ?_, trivial, ?_⟩
  · intro e he
    have h1 := List.mem_of_mem_drop he
    have h2 := (List.mem_filter.mp h1).2
    exact decide_eq_true_iff.mp h2
  · intro e he
    have h1 := List.mem_of_mem_take he
    have h2 := (List.mem_filter.mp h1).2
    exact decide_eq_true_iff.mp h2
  · intro hlen
    rw [Nat.sub_eq_zero_of_le hlen, List.drop_zero]
  · have hp := pairwise_stableSort (fun a b : RoiEntry => decide (b.roi_percentage ≤ a.roi_percentage))
      (descKey_trans (fun e : RoiEntry => e.roi_percentage))
      (descKey_tot (fun e : RoiEntry => e.roi_percentage)) hr.2
    exact hp.imp (fun hab => decide_eq_true_iff.mp hab)

/-- Witness for C2: on a concrete successful run with one zero-ROI trade,
the amended statement applies and its at-most-20-negatives clause gives the
worst list exactly. -/
theorem c2_amended_roi_slices_witness :
    (analyzeD tsZeroSpent).worst_roi_players =
      (analyzeD tsZeroSpent).roi_data.filter (fun e => decide (e.roi_percentage < 0)) :=
  (c2_amended_roi_slices tsZeroSpent (analyzeD tsZeroSpent) rfl).2.2.2.1 (by decide)

/-- C3 (counterexample): player A has a clause-increase record (so it belongs
to the claimed population) and a disposal record, yet it appears in neither
`player_profitability` (which also requires a purchase-like record) nor
`current_squad` (which requires no disposal), contradicting the claimed
exact-one-list partition. -/
theorem c3_counterexample :
    0 < tsClauseSale.countP
        (fun t => isFor t "A" && (isPurchaseType t.type || isClauseType t.type)) ∧
    0 < tsClauseSale.countP (fun t => isFor t "A" && isSaleType t.type) ∧
    player_profitability tsClauseSale = [] ∧
    current_squad tsClauseSale = [] := by
  refine ⟨by decide, by decide, by decide, by decide⟩

/-- C3 (amended): over players with at least one acquisition-role or
clause-increase record, membership is: a player appears in
`player_profitability` exactly when it has both a purchase-like and a
sale-like record; it appears in `current_squad` exactly when it has no
sale-like record and some purchase-like or clause-increase record.  A player
with only clause increases among its acquisitions and at least one disposal
appears in neither list; no player appears in both. -/
theorem c3_amended_partition (ts : List Transaction) (p : String) :
    ((∃ e ∈ player_profitability ts, e.player = p) ↔
      (ts.filter (fun t => isFor t p && isPurchaseType t.type) ≠ [] ∧
        ts.filter (fun t => isFor t p && isSaleType t.type) ≠ [])) ∧
    ((∃ e ∈ current_squad ts, e.player = p) ↔
      (ts.filter (fun t => isFor t p && isSaleType t.type) = [] ∧
        (ts.filter (fun t => isFor t p && isPurchaseType t.type) ≠ [] ∨
          ts.filter (fun t => isFor t p && isClauseType t.type) ≠ []))) ∧
    ¬((∃ e ∈ player_profitability ts, e.player = p) ∧
      (∃ e ∈ current_squad ts, e.player = p)) := by
  have h1 : (∃ e ∈ player_profitability ts, e.player = p) ↔
      (∃ e ∈ profitPre ts, e.player = p) := by
    constructor
    · rintro ⟨e, he, hep⟩
      exact ⟨e, (mem_stableSort _ e _).mp he, hep⟩
    · rintro ⟨e, he, hep⟩
      exact ⟨e, (mem_stableSort _ e _).mpr he, hep⟩
  have h2 : (∃ e ∈ current_squad ts, e.player = p) ↔
      (∃ e ∈ squadPre ts, e.player = p) := by
    constructor
    · rintro ⟨e, he, hep⟩
      exact ⟨e, (mem_stableSort _ e _).mp he, hep⟩
    · rintro ⟨e, he, hep⟩
      exact ⟨e, (mem_stableSort _ e _).mpr he, hep⟩
  have hiff1 := h1.trans (mem_profitPre_iff ts p)
  have hiff2 := h2.trans (mem_squadPre_iff ts p)
  refine ⟨hiff1, hiff2, ?_⟩
  rintro ⟨ha, hb⟩
  exact (hiff1.mp ha).2 (hiff2.mp hb).1

/-- Witness for C3: the amended partition instantiated at a concrete input
and player. -/
theorem c3_amended_partition_witness :
    ¬((∃ e ∈ player_profitability tsClauseSale, e.player = "A") ∧
      (∃ e ∈ current_squad tsClauseSale, e.player = "A")) :=
  (c3_amended_partition tsClauseSale "A").2.2

/-- C4: every `player_profitability` entry has `total_spent` equal to the sum
of absolute purchase-like amounts plus the sum of absolute clause-increase
amounts of its player over the whole input, `total_earned` equal to the
signed sum of its sale-like amounts, and `net_profit = total_earned -
total_spent`; the list is sorted by `net_profit` descending with ties kept in
encounter order (for every key, the equal-key subsequence of the sorted list
is the equal-key subsequence of the pre-sort list, which lists qualifying
players in first-encounter order); `total_profitability` is the sum of
`net_profit` over the list. -/
theorem c4_profitability (ts : List Transaction) :
    (∀ e ∈ player_profitability ts,
      e.total_spent = sumAbs (ts.filter (fun t => isFor t e.player && isPurchaseType t.type))
          + sumAbs (ts.filter (fun t => isFor t e.player && isClauseType t.type)) ∧
      e.total_earned = sumAmt (ts.filter (fun t => isFor t e.player && isSaleType t.type)) ∧
      e.net_profit = e.total_earned - e.total_spent) ∧
    (player_profitability ts).Pairwise (fun a b => b.net_profit ≤ a.net_profit) ∧
    (∀ k : Int, (player_profitability ts).filter (fun e => e.net_profit == k) =
      (profitPre ts).filter (fun e => e.net_profit == k)) ∧
    profitPre ts = ((pKeys ts).filter (fun p => qualifies ts p)).map
      (fun p => mkProfitEntry p (filtPD ts p)) ∧
    total_profitability ts = ((player_profitability ts).map (fun e => e.net_profit)).sum := by
  refine ⟨?_, ?_, ?_, profitPre_eq ts, rfl⟩
  · intro e he
    have he2 : e ∈ profitPre ts := (mem_stableSort _ e (profitPre ts)).mp he
    rcases mem_profitPre_elim ts e he2 with ⟨p, rfl, _, _⟩
    exact ⟨rfl, rfl, rfl⟩
  · have hp := pairwise_stableSort (fun a b : ProfitEntry => decide (b.net_profit ≤ a.net_profit))
      (descKey_trans (fun e : ProfitEntry => e.net_profit))
      (descKey_tot (fun e : ProfitEntry => e.net_profit)) (profitPre ts)
    exact hp.imp (fun hab => decide_eq_true_iff.mp hab)
  · intro k
    exact filter_stableSort _ _ (descKey_stab (fun e : ProfitEntry => e.net_profit) k) _

/-- Witness for C4: the headline-total equation instantiated at a concrete
input. -/
theorem c4_profitability_witness :
    total_profitability tsOneTrade =
      ((player_profitability tsOneTrade).map (fun e => e.net_profit)).sum :=
  (c4_profitability tsOneTrade).2.2.2.2

/-- C5: `best_deals` is exactly the positive-`net_profit` entries of
`player_profitability` in the same descending order; `biggest_losses`
contains exactly the negative entries, sorted ascending by `net_profit`;
zero-profit entries appear in neither list and no entry appears in both. -/
theorem c5_deals_losses (ts : List Transaction) :
    best_deals ts = (player_profitability ts).filter (fun e => decide (0 < e.net_profit)) ∧
    (∀ e, e ∈ best_deals ts ↔ e ∈ player_profitability ts ∧ 0 < e.net_profit) ∧
    (∀ e, e ∈ biggest_losses ts ↔ e ∈ player_profitability ts ∧ e.net_profit < 0) ∧
    (biggest_losses ts).Pairwise (fun a b => a.net_profit ≤ b.net_profit) ∧
    (∀ e ∈ player_profitability ts, e.net_profit = 0 →
      e ∉ best_deals ts ∧ e ∉ biggest_losses ts) ∧
    (∀ e, ¬(e ∈ best_deals ts ∧ e ∈ biggest_losses ts)) := by
  have hmemb : ∀ e, e ∈ best_deals ts ↔ e ∈ player_profitability ts ∧ 0 < e.net_profit := by
    intro e
    rw [show best_deals ts = stableSort (fun a b => decide (b.net_profit ≤ a.net_profit))
      ((player_profitability ts).filter (fun p => decide (0 < p.net_profit))) from rfl,
      mem_stableSort, List.mem_filter, decide_eq_true_iff]
  have hmeml : ∀ e, e ∈ biggest_losses ts ↔ e ∈ player_profitability ts ∧ e.net_profit < 0 := by
    intro e
    rw [show biggest_losses ts = stableSort (fun a b => decide (a.net_profit ≤ b.net_profit))
      ((player_profitability ts).filter (fun p => decide (p.net_profit < 0))) from rfl,
      mem_stableSort, List.mem_filter, decide_eq_true_iff]
  refine ⟨?_, hmemb, hmeml, ?_, ?_, ?_⟩
  · have h1 : (player_profitability ts).Pairwise
        (fun a b : ProfitEntry => decide (b.net_profit ≤ a.net_profit) = true) :=
      pairwise_stableSort _ (descKey_trans (fun e : ProfitEntry => e.net_profit))
        (descKey_tot (fun e : ProfitEntry => e.net_profit)) (profitPre ts)
    have h2 := h1.filter (fun p => decide (0 < p.net_profit))
    exact stableSort_eq_of_pairwise _ _ h2
  · have hp := pairwise_stableSort (fun a b : ProfitEntry => decide (a.net_profit ≤ b.net_profit))
      (ascKey_trans (fun e : ProfitEntry => e.net_profit))
      (ascKey_tot (fun e : ProfitEntry => e.net_profit))
      ((player_profitability ts).filter (fun p => decide (p.net_profit < 0)))
    exact hp.imp (fun hab => decide_eq_true_iff.mp hab)
  · intro e _ hzero
    constructor
    · intro hmem
      have := (hmemb e).mp hmem
      omega
    · intro hmem
      have := (hmeml e).mp hmem
      omega
  · intro e
    rintro ⟨h1, h2⟩
    have hb := (hmemb e).mp h1
    have hl := (hmeml e).mp h2
    omega

/-- Witness for C5: the best-deals equation instantiated at a concrete input. -/
theorem c5_deals_losses_witness :
    best_deals tsOneTrade =
      (player_profitability tsOneTrade).filter (fun e => decide (0 < e.net_profit)) :=
  (c5_deals_losses tsOneTrade).1

/-- C6: every trading-partner entry carries, for its counterparty, the count
of buyout-signing/loan-purchase records and the sum of their absolute
amounts (`purchases`/`spent`), the count of buyout-sale/loan-sale records and
their signed sum (`sales`/`earned`), and `net_exchange = earned - spent`; the
list is sorted by `net_exchange` descending.  On the concrete scenario of a
-5000 buyout signing and a +3000 buyout sale with counterparty C, the view
is exactly one entry with purchases 1, spent 5000, sales 1, earned 3000 and
net exchange -2000. -/
theorem c6_trading_partners (ts : List Transaction) :
    (∀ e ∈ top_trading_partners ts,
      e.purchases = (ts.filter (fun t => isPart t e.partner && isPartnerBuy t.type)).length ∧
      e.spent = sumAbs (ts.filter (fun t => isPart t e.partner && isPartnerBuy t.type)) ∧
      e.sales = (ts.filter (fun t => isPart t e.partner && isPartnerSell t.type)).length ∧
      e.earned = sumAmt (ts.filter (fun t => isPart t e.partner && isPartnerSell t.type)) ∧
      e.net_exchange = e.earned - e.spent) ∧
    (top_trading_partners ts).Pairwise (fun a b => b.net_exchange ≤ a.net_exchange) ∧
    top_trading_partners tsPartnerC = [⟨"C", 1, 1, 5000, 3000, -2000⟩] := by
  refine ⟨?_, ?_, by decide⟩
  · intro e he
    have he2 := (mem_stableSort _ e _).mp he
    rw [partnerAcc_eq, List.map_map] at he2
    rcases List.mem_map.mp he2 with ⟨k, _, rfl⟩
    exact ⟨rfl, rfl, rfl, rfl, rfl⟩
  · have hp := pairwise_stableSort
      (fun a b : PartnerEntry => decide (b.net_exchange ≤ a.net_exchange))
      (descKey_trans (fun e : PartnerEntry => e.net_exchange))
      (descKey_tot (fun e : PartnerEntry => e.net_exchange))
      ((partnerAcc ts).map (fun kv =>
        ⟨kv.1, kv.2.purchases, kv.2.sales, kv.2.spent, kv.2.earned,
          kv.2.earned - kv.2.spent⟩))
    exact hp.imp (fun hab => decide_eq_true_iff.mp hab)

/-- Witness for C6: the concrete counterparty scenario, via the claim
theorem. -/
theorem c6_trading_partners_witness :
    top_trading_partners tsPartnerC = [⟨"C", 1, 1, 5000, 3000, -2000⟩] :=
  (c6_trading_partners tsPartnerC).2.2

/-- C7: the type breakdown groups all records by kind: every kind present in
the output has a positive count equal to the number of records of that kind,
`total_amount` equal to their signed sum, and `avg_amount` exactly
`total_amount / count`; a kind appears in the output exactly when some record
has it, so kinds with no records are absent. -/
theorem c7_type_summary (ts : List Transaction) :
    (∀ k s, (k, s) ∈ type_summary ts →
      0 < s.count ∧
      s.count = (ts.filter (fun t => t.type == k)).length ∧
      s.total_amount = sumAmt (ts.filter (fun t => t.type == k)) ∧
      s.avg_amount = (s.total_amount : ℚ) / (s.count : ℚ)) ∧
    (∀ k : String, (∃ s, (k, s) ∈ type_summary ts) ↔ ∃ t ∈ ts, t.type = k) := by
  constructor
  · intro k s hmem
    rw [type_summary_eq] at hmem
    rcases List.mem_map.mp hmem with ⟨k2, hk2, heq⟩
    have hk : k2 = k := congrArg Prod.fst heq
    subst hk
    have hs : s = ⟨(ts.filter (fun t => t.type == k2)).length,
        sumAmt (ts.filter (fun t => t.type == k2)),
        if 0 < (ts.filter (fun t => t.type == k2)).length then
          (sumAmt (ts.filter (fun t => t.type == k2)) : ℚ) /
            ((ts.filter (fun t => t.type == k2)).length : ℚ)
        else 0⟩ := (congrArg Prod.snd heq).symm
    subst hs
    have hpos : 0 < (ts.filter (fun t => t.type == k2)).length := by
      rw [typeKeys, mem_firstKeys, List.mem_map] at hk2
      rcases hk2 with ⟨t, ht, rfl⟩
      have : t ∈ ts.filter (fun t2 => t2.type == t.type) := by
        rw [List.mem_filter]
        exact ⟨ht, by simp⟩
      calc 0 < 1 := Nat.zero_lt_one
        _ ≤ (ts.filter (fun t2 => t2.type == t.type)).length :=
          List.length_pos.mpr (List.ne_nil_of_mem this)
    exact ⟨hpos, rfl, rfl, by rw [if_pos hpos]⟩
  · intro k
    constructor
    · rintro ⟨s, hmem⟩
      rw [type_summary_eq] at hmem
      rcases List.mem_map.mp hmem with ⟨k2, hk2, heq⟩
      have hk : k2 = k := congrArg Prod.fst heq
      subst hk
      rw [typeKeys, mem_firstKeys, List.mem_map] at hk2
      rcases hk2 with ⟨t, ht, hty⟩
      exact ⟨t, ht, hty⟩
    · rintro ⟨t, ht, hty⟩
      rw [type_summary_eq]
      refine ⟨_, List.mem_map_of_mem _ ?_⟩
      rw [typeKeys, mem_firstKeys, List.mem_map]
      exact ⟨t, ht, hty⟩

/-- Witness for C7: the presence criterion instantiated at a concrete input
and kind. -/
theorem c7_type_summary_witness :
    (∃ s, ("purchase", s) ∈ type_summary tsOneTrade) ↔
      ∃ t ∈ tsOneTrade, t.type = "purchase" :=
  (c7_type_summary tsOneTrade).2 "purchase"

/-- C8: over the ROI-qualifying population of a successful run,
`total_trades` is the length of `roi_data`, `profitable_trades` counts the
entries with positive `net_profit`, `losing_trades` is the remainder, and
`win_rate` is 0 when there are no trades and
`profitable_trades / total_trades * 100` otherwise. -/
theorem c8_win_rate (ts : List Transaction) (a : Analytics)
    (h : analyze ts = Except.ok a) :
    a.total_trades = a.roi_data.length ∧
    a.profitable_trades = (a.roi_data.filter (fun e => decide (0 < e.net_profit))).length ∧
    a.losing_trades = a.total_trades - a.profitable_trades ∧
    (a.total_trades = 0 → a.win_rate = 0) ∧
    (0 < a.total_trades → a.win_rate =
      (a.profitable_trades : ℚ) / (a.total_trades : ℚ) * 100) := by
  rcases analyze_ok_elim ts a h with ⟨hr, _, rfl⟩
  simp only [mkAnalytics]
  refine ⟨(length_stableSort _ _).symm, ?_, trivial, ?_, ?_⟩
  · rw [← List.countP_eq_length_filter, ← List.countP_eq_length_filter, countP_stableSort]
  · intro h0
    rw [if_neg (by omega)]
  · intro h0
    rw [if_pos h0]

/-- Witness for C8: the win-rate facts instantiated at a concrete successful
run with one profitable trade. -/
theorem c8_win_rate_witness :
    (analyzeD tsOneTrade).total_trades = (analyzeD tsOneTrade).roi_data.length :=
  (c8_win_rate tsOneTrade (analyzeD tsOneTrade) rfl).1

/-- C10: a record whose player name is absent (or empty) does not change the
player grouping, so `player_profitability`, `current_squad` and the
hold-time/ROI loop (hence the win-rate figures) are unchanged by inserting
it anywhere, while the type breakdown counts it; and every entry of
`player_profitability` and `current_squad` carries a non-empty player name. -/
theorem c10_nameless_records (ts1 ts2 : List Transaction) (t : Transaction)
    (h : t.footballer = none ∨ t.footballer = some "") :
    player_transactions (ts1 ++ t :: ts2) = player_transactions (ts1 ++ ts2) ∧
    player_profitability (ts1 ++ t :: ts2) = player_profitability (ts1 ++ ts2) ∧
    current_squad (ts1 ++ t :: ts2) = current_squad (ts1 ++ ts2) ∧
    roiScan (player_transactions (ts1 ++ t :: ts2)) =
      roiScan (player_transactions (ts1 ++ ts2)) ∧
    typeCountAt (ts1 ++ t :: ts2) t.type = typeCountAt (ts1 ++ ts2) t.type + 1 ∧
    (∀ ts : List Transaction, ∀ e ∈ player_profitability ts, e.player ≠ "") ∧
    (∀ ts : List Transaction, ∀ e ∈ current_squad ts, e.player ≠ "") := by
  have hkey : keyOf t = none := by
    rcases h with h | h <;> simp [keyOf, h]
  have hstep : groupStep (List.foldl groupStep [] ts1) t = List.foldl groupStep [] ts1 :=
    groupStep_eq_none _ t hkey
  have hpt : player_transactions (ts1 ++ t :: ts2) = player_transactions (ts1 ++ ts2) := by
    unfold player_transactions
    rw [List.foldl_append, List.foldl_append, List.foldl_cons, hstep]
  refine ⟨hpt, ?_, ?_, by rw [hpt], ?_, ?_, ?_⟩
  · unfold player_profitability profitPre
    rw [hpt]
  · unfold current_squad squadPre
    rw [hpt]
  · rw [typeCountAt_eq, typeCountAt_eq, List.filter_append, List.filter_append,
      List.filter_cons, if_pos (by simp)]
    simp only [List.length_append, List.length_cons]
    omega
  · intro ts e he
    have he2 : e ∈ profitPre ts := (mem_stableSort _ e (profitPre ts)).mp he
    rcases mem_profitPre_elim ts e he2 with ⟨p, rfl, _, hkeym⟩
    exact pKeys_ne_empty_string ts p hkeym
  · intro ts e he
    have he2 : e ∈ squadPre ts := (mem_stableSort _ e (squadPre ts)).mp he
    rcases mem_squadPre_elim ts e he2 with ⟨p, rfl, _, hkeym⟩
    exact pKeys_ne_empty_string ts p hkeym

/-- Witness for C10: inserting a bonus record (no footballer) between a
purchase and a sale leaves the player grouping unchanged. -/
theorem c10_nameless_records_witness :
    player_transactions ([mkT "purchase" (some "A") none (some 0) (-1000)] ++ tBonus ::
        [mkT "sale" (some "A") none (some 1440) 1500]) =
      player_transactions ([mkT "purchase" (some "A") none (some 0) (-1000)] ++
        [mkT "sale" (some "A") none (some 1440) 1500]) :=
  (c10_nameless_records [mkT "purchase" (some "A") none (some 0) (-1000)]
    [mkT "sale" (some "A") none (some 1440) 1500] tBonus (Or.inl rfl)).1
